import Mathlib

/-!
Shallow embedding of `src/converter.py` (class `HeadLightToODOTConverter`)
from the HDOT-Converter1 repository, together with proofs about the claims
of its specification.

Modelling conventions:
* JSON / Python values are modelled by the inductive type `JVal`.
  Python `int` and `float` are both modelled with exact rational numbers
  (`Int` resp. `Rat`); JSON numbers are finite decimals, so the order
  comparisons performed by the code are modelled exactly.  Non-finite
  floats (`nan`, `inf`) are outside the model: the string-to-float parser
  rejects their spellings.
* Raised Python exceptions are modelled with the `Except PyErr` monad.
* Python `dict`s appearing in the JSON input have string keys (JSON
  objects); internal dicts keyed by arbitrary values (`contractor_totals`)
  are modelled as insertion-ordered association lists whose key equality
  is Python's `==` (`pyEq`), and inserting an unhashable key raises.
-/

/-- Python exception kinds raised by the modelled code. -/
inductive PyErr where
  | typeError
  | valueError
  | attributeError
  | indexError
deriving DecidableEq, Repr

/-- Model of Python/JSON values as manipulated by `converter.py`. -/
inductive JVal where
  | s : String → JVal
  | i : Int → JVal
  | f : Rat → JVal
  | b : Bool → JVal
  | null : JVal
  | list : List JVal → JVal
  | dict : List (String × JVal) → JVal
deriving Repr

/-- Numeric view: Python treats `bool` as an `int` (`True == 1`), and
`int`/`float` compare by value. -/
def JVal.asNum : JVal → Option Rat
  | .i n => some (n : Rat)
  | .f q => some q
  | .b bv => some (if bv then 1 else 0)
  | _ => none

/-- Python truthiness (`bool(x)`): empty string/list/dict, zero, `None`
and `False` are falsy. -/
def JVal.truthy : JVal → Bool
  | .s v => v ≠ ""
  | .i n => n ≠ 0
  | .f q => q ≠ 0
  | .b bv => bv
  | .null => false
  | .list xs => ¬xs.isEmpty
  | .dict xs => ¬xs.isEmpty

mutual
/-- Python `==` on the values reachable in this code: numbers compare by
value across `int`/`float`/`bool`; strings by content; lists element-wise.
Dicts are compared structurally, which is sufficient here: the code only
ever compares a string against container elements. -/
def pyEq : JVal → JVal → Bool
  | .s a, .s bv => a = bv
  | .null, .null => true
  | .list xs, .list ys => pyEqList xs ys
  | .dict xs, .dict ys => pyEqDict xs ys
  | a, bv =>
    match a.asNum, bv.asNum with
    | some x, some y => x = y
    | _, _ => false

def pyEqList : List JVal → List JVal → Bool
  | [], [] => true
  | x :: xs, y :: ys => pyEq x y && pyEqList xs ys
  | _, _ => false

def pyEqDict : List (String × JVal) → List (String × JVal) → Bool
  | [], [] => true
  | (k₁, v₁) :: xs, (k₂, v₂) :: ys => k₁ = k₂ && pyEq v₁ v₂ && pyEqDict xs ys
  | _, _ => false
end

/-- Lookup in a JSON object / Python dict with string keys (`d[k]` /
`k in d` use this). -/
def dictLookup (xs : List (String × JVal)) (k : String) : Option JVal :=
  match xs with
  | [] => none
  | (k₁, v) :: rest => if k₁ = k then some v else dictLookup rest k

/-- Python `d.get(k, default)`. -/
def dictGet (xs : List (String × JVal)) (k : String) (dflt : JVal) : JVal :=
  (dictLookup xs k).getD dflt

/-- `needle` occurs as a contiguous sublist of `hay` (Python's substring
`in` on the character lists). -/
def listContainsSub (hay needle : List Char) : Bool :=
  needle.isPrefixOf hay ||
    match hay with
    | [] => false
    | _ :: t => listContainsSub t needle

/-- Python `needle in hay` for strings (substring test). -/
def strContains (hay needle : String) : Bool :=
  listContainsSub hay.toList needle.toList

/-- Python `needle in container` where `container` is an arbitrary value:
substring test for strings, element test (via `==`) for lists, key test
for dicts; other right operands raise `TypeError`. -/
def pyIn (needle : JVal) (container : JVal) : Except PyErr Bool :=
  match container with
  | .s hay =>
    match needle with
    | .s n => .ok (strContains hay n)
    | _ => .error .typeError
  | .list xs => .ok (xs.any (fun x => pyEq needle x))
  | .dict xs => .ok (xs.any (fun kv => pyEq needle (.s kv.1)))
  | _ => .error .typeError

/-- A value usable as a Python dict key (hashable): lists and dicts raise
`TypeError` when used as keys. -/
def JVal.hashable : JVal → Bool
  | .list _ => false
  | .dict _ => false
  | _ => true

/-- Python `str.lower()` (the strings involved are ASCII). -/
def pyLower (v : String) : String :=
  String.mk (v.toList.map Char.toLower)

/-- Python `str.strip()` (ASCII whitespace). -/
def pyStrip (v : String) : String :=
  String.mk (((v.toList.dropWhile Char.isWhitespace).reverse.dropWhile
    Char.isWhitespace).reverse)

/-- Rendering of a float value.  Python's shortest-round-trip float `repr`
is approximated (exact text of floats never matters for the claims; only
`str` of `int`s reaches claim-relevant fields). -/
def ratStr (q : Rat) : String :=
  if q.den = 1 then toString q.num ++ ".0" else toString q

mutual
/-- Python `str(x)`.  For containers Python uses `repr`, approximated
here by a fixed rendering (no claim depends on that text). -/
def pyStr : JVal → String
  | .s v => v
  | v => pyRepr v

/-- Python `repr(x)`, approximated for containers and floats. -/
def pyRepr : JVal → String
  | .s v => String.singleton (Char.ofNat 39) ++ v ++ String.singleton (Char.ofNat 39)
  | .i n => toString n
  | .f q => ratStr q
  | .b bv => if bv then "True" else "False"
  | .null => "None"
  | .list xs => "[" ++ String.intercalate ", " (pyReprList xs) ++ "]"
  | .dict xs => "\x7b" ++ String.intercalate ", " (pyReprDict xs) ++ "\x7d"

def pyReprList : List JVal → List String
  | [] => []
  | x :: xs => pyRepr x :: pyReprList xs

def pyReprDict : List (String × JVal) → List String
  | [] => []
  | (k, v) :: xs =>
    (String.singleton (Char.ofNat 39) ++ k ++ String.singleton (Char.ofNat 39)
      ++ ": " ++ pyRepr v) :: pyReprDict xs
end

/-- Value of a list of decimal digit characters. -/
def digitsToNat (cs : List Char) : Nat :=
  cs.foldl (fun a c => a * 10 + (c.toNat - 48)) 0

/-- All characters are decimal digits and there is at least one. -/
def isDigits (cs : List Char) : Bool :=
  !cs.isEmpty && cs.all Char.isDigit

/-- Split a character list at the first character satisfying `p`
(that character is dropped). -/
def splitFirst (p : Char → Bool) : List Char → Option (List Char × List Char)
  | [] => none
  | c :: cs =>
    if p c then some ([], cs)
    else match splitFirst p cs with
      | some (a, bv) => some (c :: a, bv)
      | none => none

/-- Model of Python `float(string)`: optional surrounding whitespace,
optional sign, decimal mantissa with optional fraction part and optional
exponent.  Digit-group underscores and the non-finite spellings
(`inf`, `nan`) are outside the model. -/
def parsePyFloat (v : String) : Option Rat :=
  let cs := (pyStrip v).toList
  let (sgn, cs) : Rat × List Char :=
    match cs with
    | '+' :: t => (1, t)
    | '-' :: t => (-1, t)
    | _ => (1, cs)
  let (mant, expv) : List Char × Option (List Char) :=
    match splitFirst (fun c => c = 'e' || c = 'E') cs with
    | some (a, bv) => (a, some bv)
    | none => (cs, none)
  let mantVal : Option Rat :=
    match splitFirst (fun c => c = '.') mant with
    | some (ip, fp) =>
      if (isDigits ip || ip.isEmpty) && (isDigits fp || fp.isEmpty)
          && !(ip.isEmpty && fp.isEmpty) && !fp.any (fun c => c = '.') then
        some ((digitsToNat ip : Rat) + (digitsToNat fp : Rat) / ((10 : Rat) ^ fp.length))
      else none
    | none => if isDigits mant then some (digitsToNat mant : Rat) else none
  match mantVal with
  | none => none
  | some mv =>
    match expv with
    | none => some (sgn * mv)
    | some ec =>
      let (esgn, ed) : Int × List Char :=
        match ec with
        | '+' :: t => (1, t)
        | '-' :: t => (-1, t)
        | _ => (1, ec)
      if isDigits ed then some (sgn * mv * (10 : Rat) ^ (esgn * (digitsToNat ed : Int)))
      else none

/-- Python `float(x)` for a general value: strings are parsed (raising
`ValueError` on failure), numbers and booleans convert, anything else
raises `TypeError`. -/
def pyFloat : JVal → Except PyErr Rat
  | .s v =>
    match parsePyFloat v with
    | some q => .ok q
    | none => .error .valueError
  | .i n => .ok (n : Rat)
  | .f q => .ok q
  | .b bv => .ok (if bv then 1 else 0)
  | _ => .error .typeError

/-- Python `a + b` for the numeric values added by this code
(`trade_totals[trade] += count`): `int`/`bool` addition stays `int`,
a `float` operand makes the result `float`; anything else raises. -/
def pyAdd (a bv : JVal) : Except PyErr JVal :=
  match a, bv with
  | .i x, .i y => .ok (.i (x + y))
  | .i x, .b y => .ok (.i (x + if y then 1 else 0))
  | .b x, .i y => .ok (.i ((if x then 1 else 0) + y))
  | .b x, .b y => .ok (.i ((if x then 1 else 0) + if y then 1 else 0))
  | _, _ =>
    match a.asNum, bv.asNum with
    | some x, some y => .ok (.f (x + y))
    | _, _ => .error .typeError

/-- Python `for item in container`: lists yield elements, strings yield
their characters (as 1-character strings), dicts yield their keys;
other values are not iterable and raise `TypeError`. -/
def iterItems : JVal → Except PyErr (List JVal)
  | .list xs => .ok xs
  | .s v => .ok (v.toList.map (fun c => .s (String.singleton c)))
  | .dict xs => .ok (xs.map (fun kv => .s kv.1))
  | _ => .error .typeError

/-- Python `container[k]` for a string key `k`: only dicts support it
(the `in` guards in the code ensure the key is present there); lists,
strings and scalars raise `TypeError`. -/
def pySubscriptStr (container : JVal) (k : String) : Except PyErr JVal :=
  match container with
  | .dict xs =>
    match dictLookup xs k with
    | some v => .ok v
    | none => .error .typeError
  | _ => .error .typeError

/-- Python `sep.join(xs)`: every element must be a string, otherwise
`TypeError`. -/
def pyJoin (sep : String) (xs : List JVal) : Except PyErr String :=
  match xs with
  | [] => .ok ""
  | [.s v] => .ok v
  | .s v :: rest => do
    let r ← pyJoin sep rest
    .ok (v ++ sep ++ r)
  | _ => .error .typeError

/-! ## `extract_weather_data` (converter.py lines 103-152) -/

/-- The fixed-shape `weather_data` dict built by `extract_weather_data`. -/
structure WeatherData where
  temperature : JVal
  wind : JVal
  humidity : JVal
  conditions : JVal
deriving Repr

/-- The initial defaults of `weather_data`. -/
def weatherDefaults : WeatherData :=
  ⟨.i 0, .s "Calm", .i 50, .s "Clear"⟩

/-- The humidity-string to percentage chain of lines 129-140. -/
def humidityOfString (hs : String) : Int :=
  let hl := pyLower hs
  if strContains hl "dry" then 25
  else if strContains hl "low" then 35
  else if strContains hl "medium" || strContains hl "med" then 60
  else if strContains hl "high" then 80
  else 50

/-- Lines 115-118: the Temperature field (assigned only when truthy;
strings go through `float()`). -/
def tempOf (weather : List (String × JVal)) : Except PyErr JVal :=
  let temp := dictGet weather "Temperature" (.i 0)
  if temp.truthy then
    match temp with
    | .s v =>
      match parsePyFloat v with
      | some q => .ok (JVal.f q)
      | none => .error .valueError
    | _ => .ok temp
  else .ok weatherDefaults.temperature

/-- Lines 120-123: the Wind field (assigned only when truthy). -/
def windOf (weather : List (String × JVal)) : JVal :=
  let windv := dictGet weather "Wind" (.s "Calm")
  if windv.truthy then windv else weatherDefaults.wind

/-- Lines 125-145: the Humidity field (strings are mapped through the
keyword chain, other values through `float()` when truthy). -/
def humOf (weather : List (String × JVal)) : Except PyErr JVal :=
  let humidity0 := dictGet weather "Humidity" (.i 50)
  match humidity0 with
  | .s hs => .ok (JVal.i (humidityOfString hs))
  | _ =>
    if humidity0.truthy then
      match pyFloat humidity0 with
      | .ok q => .ok (JVal.f q)
      | .error e => .error e
    else .ok (JVal.i 50)

/-- Lines 147-150: the Conditions field (assigned only when truthy). -/
def condOf (weather : List (String × JVal)) : JVal :=
  let condv := dictGet weather "Conditions" (.s "Clear")
  if condv.truthy then condv else weatherDefaults.conditions

/-- `HeadLightToODOTConverter.extract_weather_data`. -/
def extract_weather_data (data : List (String × JVal)) : Except PyErr WeatherData := do
  match dictLookup data "Weather" with
  | some (.dict weather) =>
    let temperature ← tempOf weather
    let humidity ← humOf weather
    pure ⟨temperature, windOf weather, humidity, condOf weather⟩
  | _ => pure weatherDefaults

/-! ## Dates, `get_day_of_week` (lines 154-182) and the date formatting
of `create_field_mapping` (lines 193-210)

The Gregorian-calendar arithmetic models Python's `datetime`; the `pytz`
timezone database is modelled by a fixed offset table (`tzOffsetMinutes`),
an unknown zone raising inside the code's inner `try` exactly as
`pytz.UnknownTimeZoneError` does.  DST subtleties of real `pytz` are
outside the model; no claim depends on which calendar day a conversion
lands on. -/

/-- Serial day number of a civil date (days since 1970-01-01). -/
def daysFromCivil (y : Int) (m d : Nat) : Int :=
  let y' : Int := if m ≤ 2 then y - 1 else y
  let era : Int := (if 0 ≤ y' then y' else y' - 399) / 400
  let yoe : Nat := (y' - era * 400).toNat
  let mp : Nat := (m + 9) % 12
  let doy : Nat := (153 * mp + 2) / 5 + d - 1
  let doe : Nat := yoe * 365 + yoe / 4 - yoe / 100 + doy
  era * 146097 + (doe : Int) - 719468

/-- Civil date of a serial day number (inverse of `daysFromCivil`). -/
def civilFromDays (z : Int) : Int × Nat × Nat :=
  let z' : Int := z + 719468
  let era : Int := (if 0 ≤ z' then z' else z' - 146096) / 146097
  let doe : Nat := (z' - era * 146097).toNat
  let yoe : Nat := (doe - doe / 1460 + doe / 36524 - doe / 146096) / 365
  let doy : Nat := doe - (365 * yoe + yoe / 4 - yoe / 100)
  let mp : Nat := (5 * doy + 2) / 153
  let d : Nat := doy - (153 * mp + 2) / 5 + 1
  let m : Nat := if mp < 10 then mp + 3 else mp - 9
  ((yoe : Int) + era * 400 + (if m ≤ 2 then 1 else 0), m, d)

/-- Python's `datetime.weekday()` (Monday = 0) of a serial day number. -/
def weekdayOfDays (z : Int) : Nat :=
  ((z + 3) % 7).toNat

/-- Gregorian leap year. -/
def isLeapYear (y : Int) : Bool :=
  (y % 4 = 0 && y % 100 ≠ 0) || y % 400 = 0

/-- Days in a month. -/
def daysInMonth (y : Int) (m : Nat) : Nat :=
  if m = 2 then (if isLeapYear y then 29 else 28)
  else if m = 4 || m = 6 || m = 9 || m = 11 then 30
  else 31

/-- A parsed `datetime`: the civil date as a serial day number, the
minute of day, and the UTC offset in minutes when the value is aware.
Seconds and fractions never matter here (conversions move whole
minutes). -/
structure PyDateTime where
  days : Int
  minute : Nat
  tzOffset : Option Int
deriving Repr

/-- 1-2 digit number field. -/
def parseNat2 (cs : List Char) : Option Nat :=
  if isDigits cs && cs.length ≤ 2 then some (digitsToNat cs) else none

/-- Parse `'%Y-%m-%d'` as `datetime.strptime` does (up to 4 year digits,
1-2 month/day digits, calendar-validated). -/
def parseYmd (v : String) : Option (Int × Nat × Nat) :=
  match splitFirst (fun c => c = '-') v.toList with
  | none => none
  | some (ys, rest) =>
    match splitFirst (fun c => c = '-') rest with
    | none => none
    | some (ms, ds) =>
      if isDigits ys && ys.length ≤ 4 then
        match parseNat2 ms, parseNat2 ds with
        | some m, some d =>
          let y : Int := digitsToNat ys
          if 1 ≤ m && m ≤ 12 && 1 ≤ d && d ≤ daysInMonth y m then
            some (y, m, d)
          else none
        | _, _ => none
      else none

/-- Parse `HH:MM[:SS[.ffffff]]`, returning the minute of day (seconds
are dropped: they never influence a whole-minute timezone shift). -/
def parseTimePart (cs : List Char) : Option Nat :=
  match splitFirst (fun c => c = ':') cs with
  | none => none
  | some (hs, rest) =>
    let ms := match splitFirst (fun c => c = ':') rest with
      | some (a, _) => a
      | none => rest
    -- seconds, if present, must be digits (with optional fraction)
    let secOk : Bool :=
      match splitFirst (fun c => c = ':') rest with
      | some (_, secs) =>
        match splitFirst (fun c => c = '.') secs with
        | some (ss, fs) => isDigits ss && ss.length ≤ 2 && isDigits fs
        | none => isDigits secs && secs.length ≤ 2
      | none => true
    match parseNat2 hs, parseNat2 ms with
    | some h, some m =>
      if secOk && h < 24 && m < 60 then some (h * 60 + m) else none
    | _, _ => none

/-- `date_str.replace('Z', '+00:00')` (line 160/196). -/
def strReplaceZ (v : String) : String :=
  String.mk (v.toList.foldr
    (fun c acc => if c = 'Z' then '+' :: '0' :: '0' :: ':' :: '0' :: '0' :: acc else c :: acc)
    [])

/-- Strict `YYYY-MM-DD` (the date part accepted by
`datetime.fromisoformat`). -/
def parseYmdIso (cs : List Char) : Option (Int × Nat × Nat) :=
  match splitFirst (fun c => c = '-') cs with
  | none => none
  | some (ys, rest) =>
    match splitFirst (fun c => c = '-') rest with
    | none => none
    | some (ms, ds) =>
      if isDigits ys && ys.length = 4 && isDigits ms && ms.length = 2
          && isDigits ds && ds.length = 2 then
        let y : Int := digitsToNat ys
        let m := digitsToNat ms
        let d := digitsToNat ds
        if 1 ≤ m && m ≤ 12 && 1 ≤ d && d ≤ daysInMonth y m then some (y, m, d)
        else none
      else none

/-- Model of `datetime.fromisoformat` on the strings reaching it here
(they contain a `'T'`): `YYYY-MM-DDTHH:MM[:SS[.ffffff]][±HH:MM]`.
Python accepts a few more spellings; a stricter parser only sends more
strings to the `except` fallback, which no claim distinguishes. -/
def parseIsoDateTime (v : String) : Option PyDateTime :=
  match splitFirst (fun c => c = 'T') v.toList with
  | none => none
  | some (dcs, tcs) =>
    match parseYmdIso dcs with
    | none => none
    | some (y, m, d) =>
      let split : List Char × Option (Int × List Char) :=
        if tcs.contains '+' then
          match splitFirst (fun c => c = '+') tcs with
          | some (tp, op) => (tp, some (1, op))
          | none => (tcs, none)
        else if tcs.contains '-' then
          match splitFirst (fun c => c = '-') tcs with
          | some (tp, op) => (tp, some (-1, op))
          | none => (tcs, none)
        else (tcs, none)
      match parseTimePart split.1 with
      | none => none
      | some minute =>
        match split.2 with
        | none => some ⟨daysFromCivil y m d, minute, none⟩
        | some (sgn, op) =>
          match parseTimePart op with
          | none => none
          | some offMin => some ⟨daysFromCivil y m d, minute, some (sgn * (offMin : Int))⟩

/-- Fixed-offset model of the `pytz` zone database: the zones that can
plausibly reach this converter, by their standard UTC offsets in
minutes.  An unlisted zone behaves as `pytz.UnknownTimeZoneError`
(caught by the code's inner `try`). -/
def tzOffsetMinutes (z : String) : Option Int :=
  if z = "UTC" then some 0
  else if z = "America/Los_Angeles" then some (-480)
  else if z = "America/Denver" then some (-420)
  else if z = "America/Chicago" then some (-360)
  else if z = "America/New_York" then some (-300)
  else none

/-- `dt.astimezone(tz)` after `pytz.UTC.localize` of a naive value:
shift the instant to the target offset. -/
def tzConvert (dt : PyDateTime) (off : Int) : PyDateTime :=
  let src := dt.tzOffset.getD 0
  let total : Int := dt.days * 1440 + (dt.minute : Int) - src + off
  ⟨Int.fdiv total 1440, (Int.fmod total 1440).toNat, some off⟩

/-- The `days` list of line 179. -/
def daysListPy : List String :=
  ["Monday", "Tuesday", "Wednesday", "Thursday", "Friday", "Saturday", "Sunday"]

/-- The date parse of lines 158-163 (`fromisoformat` after the
`'Z'` replacement when a `'T'` is present, else `strptime('%Y-%m-%d')`). -/
def parsedDate (ds : String) : Option PyDateTime :=
  if strContains ds "T" then parseIsoDateTime (strReplaceZ ds)
  else (parseYmd ds).map (fun ymd => ⟨daysFromCivil ymd.1 ymd.2.1 ymd.2.2, 0, none⟩)

/-- `HeadLightToODOTConverter.get_day_of_week` (lines 154-182).  The
whole body is wrapped in `try/except` returning `'Monday'`; a non-string
`date_str` always ends in a caught exception. -/
def get_day_of_week (date_str timezone_str : JVal) : String :=
  match date_str with
  | .s ds =>
    match parsedDate ds with
    | none => "Monday"
    | some dt =>
      let dt' :=
        if timezone_str.truthy && strContains ds "T" then
          match timezone_str with
          | .s z =>
            match tzOffsetMinutes z with
            | some off => tzConvert dt off
            | none => dt          -- inner `except`: unknown zone → pass
          | _ => dt               -- inner `except`: pytz.timezone(non-str) → pass
        else dt
      daysListPy.getD (weekdayOfDays dt'.days) "Monday"
  | _ => "Monday"

/-- Zero-padded 2-digit field of `strftime`. -/
def formatTwo (n : Nat) : String :=
  if n < 10 then "0" ++ toString n else toString n

/-- `dt.strftime('%m/%d/%y')` of a serial day number. -/
def strftimeMMDDYY (z : Int) : String :=
  let c := civilFromDays z
  formatTwo c.2.1 ++ "/" ++ formatTwo c.2.2 ++ "/" ++ formatTwo (c.1 % 100).toNat

/-- The `formatted_date` computation of `create_field_mapping`
(lines 193-210): a `try/except` that falls back to the raw
`work_date` value. -/
def formatDate (work_date timezone : JVal) : JVal :=
  match work_date with
  | .s ds =>
    if strContains ds "T" then
      match parseIsoDateTime (strReplaceZ ds) with
      | none => .s ds
      | some dt =>
        let dt' :=
          if timezone.truthy then
            match timezone with
            | .s z =>
              match tzOffsetMinutes z with
              | some off => tzConvert dt off
              | none => dt
            | _ => dt
          else dt
        .s (strftimeMMDDYY dt'.days)
    else
      match parseYmd ds with
      | none => .s ds
      | some ymd => .s (strftimeMMDDYY (daysFromCivil ymd.1 ymd.2.1 ymd.2.2))
  | _ => work_date

/-! ## The list extractors (converter.py lines 16-101) -/

/-- The per-item body of the equipment loops (lines 22-26 / 32-36):
keep the truthy `'Name'` of each dict item. -/
def equipmentNames (items : List JVal) : List JVal :=
  items.foldl
    (fun acc item =>
      match item with
      | .dict d =>
        let name := dictGet d "Name" (.s "")
        if name.truthy then acc ++ [name] else acc
      | _ => acc)
    []

/-- `HeadLightToODOTConverter.extract_equipment_data` (lines 16-38). -/
def extract_equipment_data (data : List (String × JVal)) : Except PyErr String := do
  let fromTop ←
    match dictLookup data "Equipment" with
    | some v => do
      let items ← iterItems v
      pure (equipmentNames items)
    | none => pure []
  let fromDaily ←
    match dictLookup data "DailyReport" with
    | some dr => do
      let hasEq ← pyIn (.s "Equipment") dr
      if hasEq then do
        let v ← pySubscriptStr dr "Equipment"
        let items ← iterItems v
        pure (equipmentNames items)
      else pure []
    | none => pure []
  let equipment_list := fromTop ++ fromDaily
  if equipment_list.isEmpty then pure ""
  else pyJoin "\n" equipment_list

/-- The per-item body of the narrative loops (lines 48-56 / 66-74). -/
def narrativeItems (items : List JVal) : List JVal :=
  items.foldl
    (fun acc item =>
      match item with
      | .dict d =>
        let text := dictGet d "Text" (.s "")
        let timestamp := dictGet d "Timestamp" (.s "")
        if text.truthy then
          if timestamp.truthy then
            acc ++ [.s ("[" ++ pyStr timestamp ++ "] " ++ pyStr text)]
          else acc ++ [text]
        else acc
      | _ => acc)
    []

/-- The narrative branch on one value (list / string / other). -/
def narrativeOf (narrative : JVal) : List JVal :=
  match narrative with
  | .list items => narrativeItems items
  | .s v => [.s v]
  | _ => []

/-- `HeadLightToODOTConverter.extract_remarks_data` (lines 40-78). -/
def extract_remarks_data (data : List (String × JVal)) : Except PyErr String := do
  let fromTop :=
    match dictLookup data "Narrative" with
    | some v => narrativeOf v
    | none => []
  let fromDaily ←
    match dictLookup data "DailyReport" with
    | some dr => do
      let hasNarr ← pyIn (.s "Narrative") dr
      if hasNarr then do
        let v ← pySubscriptStr dr "Narrative"
        pure (narrativeOf v)
      else pure []
    | none => pure []
  let remarks_list := fromTop ++ fromDaily
  if remarks_list.isEmpty then pure ""
  else pyJoin "\n" remarks_list

/-- `HeadLightToODOTConverter.extract_classification` (lines 80-88).
`inspector[0].get(...)` on a non-dict first element raises
`AttributeError`. -/
def extract_classification (data : List (String × JVal)) : Except PyErr JVal :=
  match dictLookup data "Inspector" with
  | some (.dict ins) => .ok (dictGet ins "Classification" (.s ""))
  | some (.list xs) =>
    match xs with
    | [] => .ok (.s "")
    | x :: _ =>
      match x with
      | .dict d => .ok (dictGet d "Classification" (.s ""))
      | _ => .error .attributeError
  | _ => .ok (.s "")

/-- `HeadLightToODOTConverter.extract_superintendent_name`
(lines 90-101): the first dict entry whose truthy `'Trade'` contains
`'Superintendent'` and whose `'Name'` is truthy; `''` when none. -/
def superintendentScan : List JVal → Except PyErr JVal
  | [] => .ok (.s "")
  | p :: rest =>
    match p with
    | .dict person => do
      let trade := dictGet person "Trade" (.s "")
      let name := dictGet person "Name" (.s "")
      if trade.truthy then do
        let c ← pyIn (.s "Superintendent") trade
        if c && name.truthy then pure name else superintendentScan rest
      else superintendentScan rest
    | _ => superintendentScan rest

/-- `HeadLightToODOTConverter.extract_superintendent_name` (lines 90-101). -/
def extract_superintendent_name (data : List (String × JVal)) : Except PyErr JVal :=
  match dictLookup data "Personnel" with
  | some (.list personnel) => superintendentScan personnel
  | _ => .ok (.s "")

/-! ## `create_field_mapping` (converter.py lines 184-391)

The Python dict `field_mapping` has string keys built by fixed
f-strings; they are modelled by the inductive type `FieldKey`, whose
`render` function reproduces the exact source strings.  Distinct
`FieldKey`s render to distinct strings (each constructor owns a distinct
literal segment), so association by `FieldKey` models association by the
rendered string. -/

/-- The form-field names used as `field_mapping` keys. -/
inductive FieldKey where
  | weatherCell (row cell : Nat)
  | contractorCell (row cell : Nat)
  | personnelCell (col : Nat)
  | locationCell (row cell : Nat)
  | onSiteSupervisor
  | photoYes
  | photoNo
  | certNo (page : Nat)
  | remarks
  | equip
  | workDate (page : Nat)
  | shift (page : Nat)
  | preparedBy (page : Nat)
  | signature (page : Nat)
  | dayOfWeek
deriving DecidableEq, Repr

/-- The exact key strings of the source. -/
def FieldKey.render : FieldKey → String
  | .weatherCell r c =>
    s!"form1[0].Page1[0].WeatherSub[0].Weather[0].Row{r}[0].Cell{c}[0]"
  | .contractorCell r c =>
    s!"form1[0].Page1[0].TableSub1[0].Table1[0].PersGroup[0].ContractorTable[0].Row{r}[0].Cell{c}[0]"
  | .personnelCell c =>
    s!"form1[0].Page1[0].TableSub1[0].Table1[0].PersGroup[0].PersonnelTable1[0].Row2[0].Cell{c}[0]"
  | .locationCell r c =>
    s!"form1[0].Page1[0].TableSub2[0].Place[0].LocationTable1[0].Row{r}[0].Cell{c}[0]"
  | .onSiteSupervisor => "form1[0].Page1[0].ProjectSub[0].#area[0].Contractor[1]"
  | .photoYes => "form1[0].Page1[0].TableSub1[0].Table1[0].PersGroup[0].PhotoYes[0]"
  | .photoNo => "form1[0].Page1[0].TableSub1[0].Table1[0].PersGroup[0].PhotoNo[0]"
  | .certNo p => s!"form1[0].#pageSet[0].Master1[{p}].SignSub[0].#area[0].CertNo[0]"
  | .remarks => "form1[0].#subform[1].RemarksSub1[0].Remarks[0]"
  | .equip => "form1[0].Page1[0].EquipSub1[0].Equip[0]"
  | .workDate p => s!"form1[0].#pageSet[0].Master1[{p}].SignSub[0].#area[0].WorkDate[0]"
  | .shift p => s!"form1[0].#pageSet[0].Master1[{p}].SignSub[0].#area[0].Shift[0]"
  | .preparedBy p => s!"form1[0].#pageSet[0].Master1[{p}].SignSub[0].#area[0].PreparedBy[0]"
  | .signature p => s!"form1[0].#pageSet[0].Master1[{p}].SignSub[0].#area[0].Signature[0]"
  | .dayOfWeek => "day_of_week"

/-- `field_mapping`, an insertion-ordered dict. -/
abbrev FieldMap := List (FieldKey × JVal)

/-- Python dict assignment `m[k] = v`: overwrite in place or append. -/
def fmSet (m : FieldMap) (k : FieldKey) (v : JVal) : FieldMap :=
  if m.any (fun kv => kv.1 = k) then m.map (fun kv => if kv.1 = k then (k, v) else kv)
  else m ++ [(k, v)]

/-- Lookup in `field_mapping`. -/
def fmFind (m : FieldMap) (k : FieldKey) : Option JVal :=
  (m.find? (fun kv => kv.1 = k)).map (fun kv => kv.2)

/-- The literal `trade_column_mapping` dict re-created at line 286 for
every personnel entry. -/
def tradeColumnBase : List (String × Nat) :=
  [("Supervisor", 1), ("Superintendent", 1), ("Operator", 2),
   ("Truck Driver", 3), ("Laborer", 4)]

/-- State of the personnel aggregation loop (lines 272-310):
`contractor_totals`, `trade_totals`, and the `trade_column_mapping`
left over from the last personnel entry that defined one (the source
re-creates that dict inside the loop body, so only the last iteration's
copy survives for line 322). -/
structure PersonnelState where
  ct : List (JVal × JVal)
  tt : List (String × JVal)
  tcm : Option (List (String × Nat))

/-- One iteration of the personnel loop (lines 272-310). -/
def personnelStep (st : PersonnelState) (p : JVal) : Except PyErr PersonnelState :=
  match p with
  | .dict person => do
    let contractor := dictGet person "Contractor" (.s "")
    let trade0 := dictGet person "Trade" (.s "")
    let count := dictGet person "Count" (.i 1)
    if ¬contractor.truthy then pure st
    else if ¬contractor.hashable then Except.error PyErr.typeError
    else do
      let ct' := if st.ct.any (fun kv => pyEq contractor kv.1) then st.ct
                 else st.ct ++ [(contractor, .i 8)]
      let trade ←
        if ¬trade0.truthy then pure "Laborer"
        else match trade0 with
          | .s v => pure (if pyStrip v = "" then "Laborer" else v)
          | _ => Except.error PyErr.attributeError
      -- a fresh mapping each iteration means `max_col` is always 4 and
      -- every unknown trade is assigned column 5
      let tcm := if tradeColumnBase.any (fun kv => kv.1 = trade) then tradeColumnBase
                 else tradeColumnBase ++ [(trade, 5)]
      let old := match st.tt.find? (fun kv => kv.1 = trade) with
        | some kv => kv.2
        | none => .i 0
      let newCount ← pyAdd old count
      let tt' := if st.tt.any (fun kv => kv.1 = trade)
        then st.tt.map (fun kv => if kv.1 = trade then (trade, newCount) else kv)
        else st.tt ++ [(trade, newCount)]
      pure ⟨ct', tt', some tcm⟩
  | _ => pure st

/-- Lines 312-318: the contractor table rows (`row += 1` sits inside
`if row < 10`, so only the first 10 contractors get rows). -/
def contractorRows (m : FieldMap) (ct : List (JVal × JVal)) : FieldMap :=
  (ct.take 10).enum.foldl
    (fun acc rkv =>
      (fmSet (fmSet acc (.contractorCell rkv.1 1) rkv.2.1)
        (.contractorCell rkv.1 2) (.s (pyStr rkv.2.2))))
    m

/-- Lines 320-324: the trade-totals columns. -/
def tradeCols (m : FieldMap) (tt : List (String × JVal)) (tcm : List (String × Nat)) :
    FieldMap :=
  tt.foldl
    (fun acc tkv =>
      let col := (((tcm.find? (fun kv => kv.1 = tkv.1)).map (fun kv => kv.2)).getD 4)
      if col ≤ 10 then fmSet acc (.personnelCell col) (.s (pyStr tkv.2)) else acc)
    m

/-- Lines 326-350: the work-items table. -/
def workItemsFold (m : FieldMap) (items : List JVal) : Except PyErr FieldMap :=
  items.enum.foldlM
    (fun acc ikv =>
      match ikv.2 with
      | .dict d =>
        if ikv.1 < 20 then do
          let description := dictGet d "Description" (.s "")
          let quantity := dictGet d "Quantity" (.i 0)
          let units := dictGet d "Units" (.s "")
          let location := dictGet d "Location" (.s "")
          let hasColon ← pyIn (.s ":") description
          let pair ←
            if hasColon then
              match description with
              | .s v =>
                match splitFirst (fun c => c = ':') v.toList with
                | some (a, bv) =>
                  pure (JVal.s (pyStrip (String.mk a)), JVal.s (pyStrip (String.mk bv)))
                | none => pure (JVal.s "", description)
              | _ => Except.error PyErr.attributeError
            else pure (JVal.s "", description)
          let total : JVal :=
            if quantity.truthy && units.truthy then
              .s (pyStr quantity ++ " " ++ pyStr units)
            else if quantity.truthy then .s (pyStr quantity)
            else .s ""
          pure (fmSet (fmSet (fmSet (fmSet acc
            (.locationCell ikv.1 1) location)
            (.locationCell ikv.1 2) pair.1)
            (.locationCell ikv.1 3) total)
            (.locationCell ikv.1 4) pair.2)
        else pure acc
      | _ => pure acc)
    m

/-- The temperature `if/elif` chain of lines 219-228. -/
def tempCells (t : Rat) (m : FieldMap) : FieldMap :=
  if t ≥ 83 then fmSet m (.weatherCell 2 1) (.s "/Yes")
  else if t ≥ 70 then fmSet m (.weatherCell 2 2) (.s "/Yes")
  else if t ≥ 50 then fmSet m (.weatherCell 2 3) (.s "/Yes")
  else if t ≥ 32 then fmSet m (.weatherCell 2 4) (.s "/Yes")
  else fmSet m (.weatherCell 2 5) (.s "/Yes")

/-- The wind chain of lines 230-237 (on the lowercased wind). -/
def windCells (windLower : String) (m : FieldMap) : FieldMap :=
  if strContains windLower "strong" || strContains windLower "high" then
    fmSet m (.weatherCell 3 3) (.s "/Yes")
  else if strContains windLower "moderate" || strContains windLower "medium" then
    fmSet m (.weatherCell 3 2) (.s "/Yes")
  else fmSet m (.weatherCell 3 1) (.s "/Yes")

/-- The humidity chain of lines 239-249. -/
def humidityCells (h : Rat) (m : FieldMap) : FieldMap :=
  if h ≥ 75 then fmSet m (.weatherCell 4 4) (.s "/Yes")
  else if h ≥ 50 then fmSet m (.weatherCell 4 3) (.s "/Yes")
  else if h ≥ 25 then fmSet m (.weatherCell 4 2) (.s "/Yes")
  else fmSet m (.weatherCell 4 1) (.s "/Yes")

/-- The conditions chain of lines 251-262 (on the lowercased value). -/
def conditionCells (condLower : String) (m : FieldMap) : FieldMap :=
  if strContains condLower "rain" || strContains condLower "shower" then
    fmSet m (.weatherCell 1 4) (.s "/Yes")
  else if strContains condLower "snow" then fmSet m (.weatherCell 1 5) (.s "/Yes")
  else if strContains condLower "cloudy" || strContains condLower "overcast" then
    fmSet m (.weatherCell 1 3) (.s "/Yes")
  else if strContains condLower "fair" || strContains condLower "partly" then
    fmSet m (.weatherCell 1 2) (.s "/Yes")
  else fmSet m (.weatherCell 1 1) (.s "/Yes")

/-- Lines 352-362: supervisor name and the supervisor-present
checkboxes. -/
def supervisorFields (supName : JVal) (m : FieldMap) : FieldMap :=
  if supName.truthy then
    fmSet (fmSet (fmSet m .onSiteSupervisor supName) .photoYes (.b true)) .photoNo (.b false)
  else fmSet (fmSet m .photoYes (.b false)) .photoNo (.b true)

/-- Lines 364-368: classification to Cert No. fields. -/
def certFields (classification : JVal) (m : FieldMap) : FieldMap :=
  if classification.truthy then
    [0, 1, 2].foldl (fun acc p => fmSet acc (.certNo p) classification) m
  else m

/-- Lines 370-373: the remarks field. -/
def remarksField (remarks : String) (m : FieldMap) : FieldMap :=
  if remarks ≠ "" then fmSet m .remarks (.s remarks) else m

/-- Lines 375-378: the equipment field. -/
def equipField (equipment : String) (m : FieldMap) : FieldMap :=
  if equipment ≠ "" then fmSet m .equip (.s equipment) else m

/-- Lines 380-386: footer fields on all three master pages. -/
def footerFields (formatted_date classification : JVal) (m : FieldMap) : FieldMap :=
  [0, 1, 2].foldl
    (fun acc p =>
      fmSet (fmSet (fmSet (fmSet (fmSet acc
        (.workDate p) formatted_date)
        (.shift p) (.s "Day"))
        (.preparedBy p) (.s "Admin HHPR"))
        (.certNo p) classification)
        (.signature p) (.s ""))
    m

/-- Lines 264-324: the whole Personnel section. -/
def personnelPart (data : List (String × JVal)) (m : FieldMap) : Except PyErr FieldMap :=
  match dictLookup data "Personnel" with
  | some (.list personnel) => do
    let st ← personnel.foldlM personnelStep ⟨[], [], none⟩
    pure (tradeCols (contractorRows m st.ct) st.tt (st.tcm.getD tradeColumnBase))
  | _ => pure m

/-- Lines 326-350: the whole WorkItems section. -/
def workPart (data : List (String × JVal)) (m : FieldMap) : Except PyErr FieldMap :=
  match dictLookup data "WorkItems" with
  | some (.list items) => workItemsFold m items
  | _ => pure m

/-- Lines 212-262: the weather block of `create_field_mapping`
(temperature, wind, humidity and conditions cells, in source order,
starting from the empty dict). -/
def weatherRest (w : WeatherData) (tempFloat : JVal) : Except PyErr FieldMap := do
  -- line 219: `temp_float >= 83` raises on a non-number
  let t ←
    match tempFloat.asNum with
    | some q => Except.ok q
    | none => Except.error PyErr.typeError
  let m := tempCells t []
  -- line 231: `weather['wind'].lower()` raises on a non-string
  let windL ←
    match w.wind with
    | .s v => Except.ok (pyLower v)
    | _ => Except.error PyErr.attributeError
  let m := windCells windL m
  -- line 242: `humidity >= 75` raises on a non-number
  let hq ←
    match w.humidity.asNum with
    | some q => Except.ok q
    | none => Except.error PyErr.typeError
  let m := humidityCells hq m
  -- line 252: `weather['conditions'].lower()` raises on a non-string
  let condL ←
    match w.conditions with
    | .s v => Except.ok (pyLower v)
    | _ => Except.error PyErr.attributeError
  pure (conditionCells condL m)

/-- Lines 212-262 assembled: `temp_float = float(temp) if
isinstance(temp, str) else temp` (lines 215-217), then the four cell
chains. -/
def weatherPart (w : WeatherData) : Except PyErr FieldMap := do
  let tempFloat ←
    match w.temperature with
    | .s v =>
      match parsePyFloat v with
      | some q => Except.ok (JVal.f q)
      | none => Except.error PyErr.valueError
    | _ => Except.ok w.temperature
  weatherRest w tempFloat

/-- Lines 352-391: the tail of `create_field_mapping` (superintendent,
classification, remarks, equipment, footer, day of week). -/
def mappingTail (data : List (String × JVal)) (mWork : FieldMap) :
    Except PyErr FieldMap := do
  let supName ← extract_superintendent_name data
  let m := supervisorFields supName mWork
  let classification ← extract_classification data
  let m := certFields classification m
  let remarks ← extract_remarks_data data
  let m := remarksField remarks m
  let equipment ← extract_equipment_data data
  let m := equipField equipment m
  let m := footerFields
    (formatDate (dictGet data "DocumentDate" (.s ""))
      (dictGet data "Timezone" (.s "America/Los_Angeles")))
    classification m
  pure (fmSet m .dayOfWeek
    (.s (get_day_of_week (dictGet data "DocumentDate" (.s ""))
      (dictGet data "Timezone" (.s "America/Los_Angeles")))))

/-- `HeadLightToODOTConverter.create_field_mapping` (lines 184-391). -/
def create_field_mapping (data : List (String × JVal)) : Except PyErr FieldMap := do
  let weather ← extract_weather_data data
  let m ← weatherPart weather
  let m ← personnelPart data m
  let m ← workPart data m
  mappingTail data m

/-! ## The PDF object model and `fill_pdf_form` (lines 393-472)

`fill_pdf_form` reads only the `/T` and `/FT` entries of each annotation
dictionary and writes only `/V` and `/AS`; the model keeps those four
entries apart and leaves every other entry in `rest`, untouched by
construction.  `/T` values are modelled as strings (the template's field
titles).  The final `pdf.save` serialization is delegated to pikepdf and
is a deterministic function of the object model, which the returned
`PdfDoc` stands for. -/

/-- A PDF object value as written/stored by this code. -/
inductive PdfVal where
  | name (v : String)
  | pstr (v : String)
  | other (n : Nat)
deriving DecidableEq, Repr

/-- An annotation dictionary. -/
structure Annot where
  title : Option String
  ftype : Option String
  value : Option PdfVal
  appearance : Option PdfVal
  rest : List (String × PdfVal)
deriving DecidableEq, Repr

/-- An image-draw operator appended to page content by
`_embed_images_in_pdf` (the `q .. cm /PhotoN Do Q` stream). -/
structure DrawOp where
  xobjName : String
  x : Rat
  y : Rat
  w : Rat
  h : Rat
deriving DecidableEq, Repr

/-- A PDF page: its annotations, the image XObjects registered in its
resources (name, pixel width, pixel height), and the drawing operators
appended to its content. -/
structure Page where
  annots : List Annot
  xobjects : List (String × Nat × Nat)
  drawOps : List DrawOp
deriving DecidableEq, Repr

/-- The PDF document object model. -/
structure PdfDoc where
  pages : List Page
deriving DecidableEq, Repr

/-- The `_radio_button_counters` instance dict. -/
abbrev Counters := List (String × Nat)

/-- Lines 452-455: initialize to 0 if absent, then increment. -/
def counterBump (cs : Counters) (k : String) : Counters :=
  if cs.any (fun kv => kv.1 = k) then
    cs.map (fun kv => if kv.1 = k then (k, kv.2 + 1) else kv)
  else cs ++ [(k, 1)]

/-- The truthiness test of line 429:
`value is True or value == '/Yes' or value == 'Yes'`. -/
def isBtnOn (v : JVal) : Bool :=
  (match v with | .b true => true | _ => false) || pyEq v (.s "/Yes") || pyEq v (.s "Yes")

/-- Lines 421-436: the effect of one `(field_name, value)` pair on one
annotation. -/
def applyField (field_name : String) (value : JVal) (a : Annot) : Annot :=
  match a.title, a.ftype with
  | some t, some ft =>
    if t = field_name then
      if ft = "/Tx" then { a with value := some (.pstr (pyStr value)) }
      else if ft = "/Btn" then
        if isBtnOn value then
          { a with value := some (.name "/Yes"), appearance := some (.name "/Yes") }
        else { a with value := some (.name "/Off"), appearance := some (.name "/Off") }
      else if ft = "/Sig" then { a with value := some (.pstr (pyStr value)) }
      else a
    else a
  | _, _ => a

/-- Lines 412-436: the first pass over the form fields
(`for field_name, value in field_mapping.items(): for page: for annot`).
Each annotation is transformed independently, so the page loops commute
with the outer fold over the mapping. -/
def applyMapping (m : List (String × JVal)) (annots : List Annot) : List Annot :=
  m.foldl
    (fun acc kv =>
      if kv.1 = "day_of_week" then acc else acc.map (applyField kv.1 kv.2))
    annots

/-- First pass at the document level. -/
def fillFieldsPass (m : List (String × JVal)) (pdf : PdfDoc) : PdfDoc :=
  { pages := pdf.pages.map (fun pg => { pg with annots := applyMapping m pg.annots }) }

/-- The `appearance_map` dict of lines 401-409, with the `.get(_, '/1')`
default of line 440. -/
def appearanceMap (day : String) : String :=
  if day = "Monday" then "/1"
  else if day = "Tuesday" then "/2"
  else if day = "Wednesday" then "/3"
  else if day = "Thursday" then "/4"
  else if day = "Friday" then "/5"
  else if day = "Saturday" then "/6"
  else if day = "Sunday" then "/7"
  else "/1"

/-- Lines 442-463: the day-of-week pass over one page's annotations,
threading `_radio_button_counters`.  `day_of_week in field_title`
raises `TypeError` when the (arbitrary mapping-supplied) day value is
not a string, but only upon reaching a `/Btn` annotation whose title
contains `'Day'`. -/
def dayPassAnnots (dayv : JVal) (target : String) :
    List Annot → Counters → Except PyErr (List Annot × Counters)
  | [], cs => .ok ([], cs)
  | a :: restAnnots, cs =>
    match a.title, a.ftype with
    | some t, some ft =>
      if ft = "/Btn" && strContains t "Day" then do
        let cs' := counterBump cs t
        let day ←
          match dayv with
          | .s d => pure d
          | _ => Except.error PyErr.typeError
        let a' :=
          if strContains t day then
            { a with value := some (.name ("/" ++ day)), appearance := some (.name target) }
          else { a with value := some (.name "/Off"), appearance := some (.name "/Off") }
        let r ← dayPassAnnots dayv target restAnnots cs'
        pure (a' :: r.1, r.2)
      else do
        let r ← dayPassAnnots dayv target restAnnots cs
        pure (a :: r.1, r.2)
    | _, _ => do
      let r ← dayPassAnnots dayv target restAnnots cs
      pure (a :: r.1, r.2)

/-- The day-of-week pass at the document level. -/
def dayPass (dayv : JVal) (target : String) (pdf : PdfDoc) (cs : Counters) :
    Except PyErr (PdfDoc × Counters) := do
  let r ← pdf.pages.foldlM
    (fun (acc : List Page × Counters) pg => do
      let pr ← dayPassAnnots dayv target pg.annots acc.2
      pure (acc.1 ++ [{ pg with annots := pr.1 }], pr.2))
    (([], cs) : List Page × Counters)
  pure ({ pages := r.1 }, r.2)

/-- An uploaded photo: either a decodable image with its pixel size,
or one whose processing raises somewhere inside the per-photo `try`
(unreadable stream, undecodable image, ...). -/
inductive Photo where
  | img (w h : Nat)
  | bad
deriving DecidableEq, Repr

/-- The `image_coords` table of lines 483-490: x, y, width, height. -/
def imageCoords : List (Rat × Rat × Nat × Nat) :=
  [((21.6 : Rat), (573.2 : Rat), 189, 142),
   ((324.0 : Rat), (573.4 : Rat), 189, 142),
   ((21.6 : Rat), (348.4 : Rat), 189, 142),
   ((324.0 : Rat), (347.8 : Rat), 189, 142),
   ((21.6 : Rat), (126.4 : Rat), 189, 142),
   ((324.0 : Rat), (126.4 : Rat), 189, 142)]

/-- `Image.thumbnail((tw, th))`: shrink-only, aspect preserving (PIL's
exact rounding is approximated with floors; no claim depends on the
resulting pixel sizes). -/
def thumbDims (w h tw th : Nat) : Nat × Nat :=
  if w ≤ tw && h ≤ th then (w, h)
  else if w = 0 || h = 0 then (w, h)
  else
    let sc : Rat := min ((tw : Rat) / (w : Rat)) ((th : Rat) / (h : Rat))
    (max 1 (Rat.floor (sc * (w : Rat))).toNat, max 1 (Rat.floor (sc * (h : Rat))).toNat)

/-- Lines 496-566: the per-photo body.  A `bad` photo takes the
`except`-and-`continue` path and leaves the page unchanged; a good photo
registers an XObject named `Photo{i+1}` and appends a draw of it at
`image_coords[i]`. -/
def embedStep (pg : Page) (i : Nat) (photo : Photo) : Page :=
  match photo with
  | .bad => pg
  | .img w h =>
    match imageCoords.get? i with
    | none => pg
    | some (x, y, tw, th) =>
      let dims := thumbDims w h tw th
      { pg with
        xobjects := pg.xobjects ++ [(s!"Photo{i + 1}", dims.1, dims.2)],
        drawOps := pg.drawOps ++ [⟨s!"Photo{i + 1}", x, y, (tw : Rat), (th : Rat)⟩] }

/-- `HeadLightToODOTConverter._embed_images_in_pdf` (lines 474-566).
`pdf.pages[3]` raises `IndexError` outside the per-photo `try` when the
template has fewer than 4 pages. -/
def _embed_images_in_pdf (pdf : PdfDoc) (uploaded_photos : List Photo) :
    Except PyErr PdfDoc :=
  if uploaded_photos.isEmpty then .ok pdf
  else
    match pdf.pages.get? 3 with
    | none => .error .indexError
    | some pg3 =>
      let pg3' := (uploaded_photos.take 6).enum.foldl
        (fun acc ikv => embedStep acc ikv.1 ikv.2) pg3
      .ok { pages := pdf.pages.set 3 pg3' }

/-- `HeadLightToODOTConverter.fill_pdf_form` (lines 393-472).
`counters0` is the `_radio_button_counters` instance state left by any
earlier call; line 396 resets it before anything else.  The result pair
is (saved document, final instance state). -/
def fill_pdf_form (counters0 : Counters) (template : PdfDoc)
    (field_mapping : List (String × JVal)) (uploaded_photos : List Photo) :
    Except PyErr (PdfDoc × Counters) := do
  -- line 396: `self._radio_button_counters = {}` discards `counters0`
  let cs : Counters := []
  -- lines 412-436: form fields
  let pdf := fillFieldsPass field_mapping template
  -- lines 438-440: day of week and its appearance name
  let dayv := ((field_mapping.find? (fun kv => kv.1 = "day_of_week")).map
    (fun kv => kv.2)).getD (.s "Monday")
  -- `appearance_map.get(day_of_week, '/1')` hashes the day value
  let target ←
    if dayv.hashable then
      pure (match dayv with | .s d => appearanceMap d | _ => "/1")
    else Except.error PyErr.typeError
  -- lines 442-463: day-of-week radio buttons
  let r ← dayPass dayv target pdf cs
  -- lines 465-467: `if uploaded_photos:` (an empty list is falsy)
  let final ←
    if uploaded_photos.isEmpty then pure r.1
    else _embed_images_in_pdf r.1 uploaded_photos
  -- lines 469-472: serialize
  pure (final, r.2)

/-! ## Basic lemmas about the `field_mapping` dict -/

theorem fmFind_nil (k : FieldKey) : fmFind [] k = none := rfl

theorem fmFind_cons (kv : FieldKey × JVal) (m : FieldMap) (k : FieldKey) :
    fmFind (kv :: m) k = if kv.1 = k then some kv.2 else fmFind m k := by
  by_cases hk : kv.1 = k
  · unfold fmFind
    rw [List.find?_cons_of_pos _ (by simp [hk])]
    simp [hk]
  · unfold fmFind
    rw [List.find?_cons_of_neg _ (by simp [hk])]
    simp [hk]

theorem fmFind_map_set (m : FieldMap) (k : FieldKey) (v : JVal) :
    fmFind (m.map (fun kv => if kv.1 = k then (k, v) else kv)) k =
      if m.any (fun kv => kv.1 = k) then some v else none := by
  induction m with
  | nil => simp [fmFind_nil]
  | cons kv rest ih =>
    by_cases hk : kv.1 = k
    · simp only [List.map, hk, if_true, List.any_cons]
      rw [fmFind_cons]
      simp [hk]
    · simp only [List.map, hk, if_false, List.any_cons]
      rw [fmFind_cons]
      simp only [hk, if_false, ih, decide_False, Bool.false_or]

theorem fmFind_map_set_ne (m : FieldMap) (k k' : FieldKey) (v : JVal) (h : k' ≠ k) :
    fmFind (m.map (fun kv => if kv.1 = k then (k, v) else kv)) k' = fmFind m k' := by
  induction m with
  | nil => simp
  | cons kv rest ih =>
    by_cases hk : kv.1 = k
    · simp only [List.map, hk, if_true]
      rw [fmFind_cons, fmFind_cons]
      have h1 : ¬(k = k') := fun hkk => h hkk.symm
      have h2 : ¬(kv.1 = k') := by rw [hk]; exact h1
      simp [h1, h2, ih]
    · simp only [List.map, hk, if_false]
      rw [fmFind_cons, fmFind_cons, ih]

theorem fmFind_append_one (m : FieldMap) (k k' : FieldKey) (v : JVal) :
    fmFind (m ++ [(k, v)]) k' =
      match fmFind m k' with
      | some w => some w
      | none => if k = k' then some v else none := by
  induction m with
  | nil =>
    rw [List.nil_append, fmFind_cons]
    simp [fmFind_nil]
  | cons kv rest ih =>
    rw [List.cons_append, fmFind_cons, fmFind_cons]
    by_cases hk : kv.1 = k'
    · simp [hk]
    · simp [hk, ih]

theorem fmFind_set_self (m : FieldMap) (k : FieldKey) (v : JVal) :
    fmFind (fmSet m k v) k = some v := by
  unfold fmSet
  by_cases hmem : m.any (fun kv => kv.1 = k)
  · simp only [hmem, if_true]
    rw [fmFind_map_set]
    simp [hmem]
  · rw [if_neg hmem, fmFind_append_one]
    have : fmFind m k = none := by
      induction m with
      | nil => rfl
      | cons kv rest ih =>
        simp only [List.any_cons, Bool.or_eq_true, decide_eq_true_eq] at hmem
        push_neg at hmem
        rw [fmFind_cons]
        simp only [hmem.1, if_false]
        exact ih (by simp [hmem.2])
    simp [this]

theorem fmFind_set_ne (m : FieldMap) (k k' : FieldKey) (v : JVal) (h : k' ≠ k) :
    fmFind (fmSet m k v) k' = fmFind m k' := by
  unfold fmSet
  by_cases hmem : m.any (fun kv => kv.1 = k)
  · simp only [hmem, if_true]
    exact fmFind_map_set_ne m k k' v h
  · rw [if_neg hmem, fmFind_append_one]
    have h1 : ¬(k = k') := fun hkk => h hkk.symm
    cases hf : fmFind m k' <;> simp [h1]

/-! ## Frame lemmas: which keys each section of `create_field_mapping`
can touch -/

theorem tempCells_find_ne (t : Rat) (m : FieldMap) (k : FieldKey)
    (h : ∀ c, k ≠ .weatherCell 2 c) :
    fmFind (tempCells t m) k = fmFind m k := by
  unfold tempCells
  split_ifs <;> exact fmFind_set_ne _ _ _ _ (h _)

theorem windCells_find_ne (w : String) (m : FieldMap) (k : FieldKey)
    (h : ∀ c, k ≠ .weatherCell 3 c) :
    fmFind (windCells w m) k = fmFind m k := by
  unfold windCells
  split_ifs <;> exact fmFind_set_ne _ _ _ _ (h _)

theorem humidityCells_find_ne (q : Rat) (m : FieldMap) (k : FieldKey)
    (h : ∀ c, k ≠ .weatherCell 4 c) :
    fmFind (humidityCells q m) k = fmFind m k := by
  unfold humidityCells
  split_ifs <;> exact fmFind_set_ne _ _ _ _ (h _)

theorem conditionCells_find_ne (w : String) (m : FieldMap) (k : FieldKey)
    (h : ∀ c, k ≠ .weatherCell 1 c) :
    fmFind (conditionCells w m) k = fmFind m k := by
  unfold conditionCells
  split_ifs <;> exact fmFind_set_ne _ _ _ _ (h _)

theorem supervisorFields_find_ne (sup : JVal) (m : FieldMap) (k : FieldKey)
    (h1 : k ≠ .onSiteSupervisor) (h2 : k ≠ .photoYes) (h3 : k ≠ .photoNo) :
    fmFind (supervisorFields sup m) k = fmFind m k := by
  unfold supervisorFields
  split_ifs
  · rw [fmFind_set_ne _ _ _ _ h3, fmFind_set_ne _ _ _ _ h2, fmFind_set_ne _ _ _ _ h1]
  · rw [fmFind_set_ne _ _ _ _ h3, fmFind_set_ne _ _ _ _ h2]

theorem certFields_find_ne (cls : JVal) (m : FieldMap) (k : FieldKey)
    (h : ∀ p, k ≠ .certNo p) :
    fmFind (certFields cls m) k = fmFind m k := by
  unfold certFields
  split_ifs
  · simp only [List.foldl]
    rw [fmFind_set_ne _ _ _ _ (h 2), fmFind_set_ne _ _ _ _ (h 1), fmFind_set_ne _ _ _ _ (h 0)]
  · rfl

theorem footerFields_find_ne (fd cls : JVal) (m : FieldMap) (k : FieldKey)
    (h1 : ∀ p, k ≠ .workDate p) (h2 : ∀ p, k ≠ .shift p)
    (h3 : ∀ p, k ≠ .preparedBy p) (h4 : ∀ p, k ≠ .certNo p)
    (h5 : ∀ p, k ≠ .signature p) :
    fmFind (footerFields fd cls m) k = fmFind m k := by
  unfold footerFields
  simp only [List.foldl]
  rw [fmFind_set_ne _ _ _ _ (h5 2), fmFind_set_ne _ _ _ _ (h4 2),
    fmFind_set_ne _ _ _ _ (h3 2), fmFind_set_ne _ _ _ _ (h2 2), fmFind_set_ne _ _ _ _ (h1 2),
    fmFind_set_ne _ _ _ _ (h5 1), fmFind_set_ne _ _ _ _ (h4 1),
    fmFind_set_ne _ _ _ _ (h3 1), fmFind_set_ne _ _ _ _ (h2 1), fmFind_set_ne _ _ _ _ (h1 1),
    fmFind_set_ne _ _ _ _ (h5 0), fmFind_set_ne _ _ _ _ (h4 0),
    fmFind_set_ne _ _ _ _ (h3 0), fmFind_set_ne _ _ _ _ (h2 0), fmFind_set_ne _ _ _ _ (h1 0)]

theorem contractorRows_aux_find_ne (l : List (Nat × JVal × JVal)) (m : FieldMap)
    (k : FieldKey) (h : ∀ r c, k ≠ .contractorCell r c) :
    fmFind (l.foldl
      (fun acc rkv =>
        (fmSet (fmSet acc (.contractorCell rkv.1 1) rkv.2.1)
          (.contractorCell rkv.1 2) (.s (pyStr rkv.2.2)))) m) k = fmFind m k := by
  induction l generalizing m with
  | nil => rfl
  | cons x rest ih =>
    simp only [List.foldl]
    rw [ih, fmFind_set_ne _ _ _ _ (h _ _), fmFind_set_ne _ _ _ _ (h _ _)]

theorem contractorRows_find_ne (m : FieldMap) (ct : List (JVal × JVal)) (k : FieldKey)
    (h : ∀ r c, k ≠ .contractorCell r c) :
    fmFind (contractorRows m ct) k = fmFind m k :=
  contractorRows_aux_find_ne _ m k h

theorem tradeCols_find_ne (m : FieldMap) (tt : List (String × JVal))
    (tcm : List (String × Nat)) (k : FieldKey) (h : ∀ c, k ≠ .personnelCell c) :
    fmFind (tradeCols m tt tcm) k = fmFind m k := by
  unfold tradeCols
  induction tt generalizing m with
  | nil => rfl
  | cons x rest ih =>
    simp only [List.foldl]
    rw [ih]
    split_ifs
    · exact fmFind_set_ne _ _ _ _ (h _)
    · rfl

theorem workItemsFold_find_ne (m m' : FieldMap) (items : List JVal) (k : FieldKey)
    (hok : workItemsFold m items = .ok m') (h : ∀ r c, k ≠ .locationCell r c) :
    fmFind m' k = fmFind m k := by
  unfold workItemsFold at hok
  -- generalize over the enumerated list
  suffices hgen : ∀ (l : List (Nat × JVal)) (m0 : FieldMap),
      l.foldlM
        (fun acc ikv =>
          match ikv.2 with
          | .dict d =>
            if ikv.1 < 20 then do
              let description := dictGet d "Description" (.s "")
              let quantity := dictGet d "Quantity" (.i 0)
              let units := dictGet d "Units" (.s "")
              let location := dictGet d "Location" (.s "")
              let hasColon ← pyIn (.s ":") description
              let pair ←
                if hasColon then
                  match description with
                  | .s v =>
                    match splitFirst (fun c => c = ':') v.toList with
                    | some (a, bv) =>
                      pure (JVal.s (pyStrip (String.mk a)), JVal.s (pyStrip (String.mk bv)))
                    | none => pure (JVal.s "", description)
                  | _ => Except.error PyErr.attributeError
                else pure (JVal.s "", description)
              let total : JVal :=
                if quantity.truthy && units.truthy then
                  .s (pyStr quantity ++ " " ++ pyStr units)
                else if quantity.truthy then .s (pyStr quantity)
                else .s ""
              pure (fmSet (fmSet (fmSet (fmSet acc
                (.locationCell ikv.1 1) location)
                (.locationCell ikv.1 2) pair.1)
                (.locationCell ikv.1 3) total)
                (.locationCell ikv.1 4) pair.2)
            else pure acc
          | _ => pure acc)
        m0 = .ok m' → fmFind m' k = fmFind m0 k by
    exact hgen items.enum m hok
  intro l
  induction l with
  | nil =>
    intro m0 hok0
    simp only [List.foldlM] at hok0
    cases hok0
    rfl
  | cons x rest ih =>
    intro m0 hok0
    simp only [List.foldlM_cons] at hok0
    rcases hx : x.2 with _ | _ | _ | _ | _ | xs | xd
    all_goals (rw [hx] at hok0; simp only [bind, Except.bind, pure] at hok0)
    case dict =>
      by_cases h20 : x.1 < 20
      · simp only [h20, if_true] at hok0
        -- peel the two Except binds of the body
        rcases hc : pyIn (.s ":") (dictGet xd "Description" (.s "")) with e | cb
        · rw [hc] at hok0; simp [Except.bind] at hok0
        · rw [hc] at hok0
          simp only [Except.bind] at hok0
          -- the `pair` computation
          by_cases hcb : cb
          · subst hcb
            simp only [if_true] at hok0
            rcases hd : dictGet xd "Description" (.s "") with dv | _ | _ | _ | _ | _ | _ <;>
              rw [hd] at hok0 <;>
              simp only [Except.bind] at hok0
            · rcases hsp : splitFirst (fun c => c = ':') dv.toList with _ | ⟨a, bv⟩ <;>
                rw [hsp] at hok0 <;>
                simp only [pure, Except.bind] at hok0 <;>
                rw [ih _ hok0] <;>
                rw [fmFind_set_ne _ _ _ _ (h _ _), fmFind_set_ne _ _ _ _ (h _ _),
                  fmFind_set_ne _ _ _ _ (h _ _), fmFind_set_ne _ _ _ _ (h _ _)]
            all_goals simp at hok0
          · simp only [Bool.not_eq_true] at hcb
            subst hcb
            simp only [Bool.false_eq_true, if_false, pure, Except.bind] at hok0
            rw [ih _ hok0]
            rw [fmFind_set_ne _ _ _ _ (h _ _), fmFind_set_ne _ _ _ _ (h _ _),
              fmFind_set_ne _ _ _ _ (h _ _), fmFind_set_ne _ _ _ _ (h _ _)]
      · simp only [h20, if_false, pure] at hok0
        exact ih _ hok0
    all_goals exact ih _ hok0

theorem personnelPart_find_ne (data : List (String × JVal)) (m m' : FieldMap)
    (k : FieldKey) (hok : personnelPart data m = .ok m')
    (hc : ∀ r c, k ≠ .contractorCell r c) (hp : ∀ c, k ≠ .personnelCell c) :
    fmFind m' k = fmFind m k := by
  unfold personnelPart at hok
  rcases hP : dictLookup data "Personnel" with _ | v
  · rw [hP] at hok
    cases hok
    rfl
  · rw [hP] at hok
    rcases v with _ | _ | _ | _ | _ | ps | _
    all_goals first
      | (cases hok; rfl)
      | (simp only [bind, Except.bind] at hok
         rcases hst : ps.foldlM personnelStep ⟨[], [], none⟩ with e | st <;> rw [hst] at hok
         · simp at hok
         · simp only [pure] at hok
           cases hok
           rw [tradeCols_find_ne _ _ _ _ hp, contractorRows_find_ne _ _ _ hc])

theorem workPart_find_ne (data : List (String × JVal)) (m m' : FieldMap)
    (k : FieldKey) (hok : workPart data m = .ok m')
    (h : ∀ r c, k ≠ .locationCell r c) :
    fmFind m' k = fmFind m k := by
  unfold workPart at hok
  rcases hW : dictLookup data "WorkItems" with _ | v
  · rw [hW] at hok
    cases hok
    rfl
  · rw [hW] at hok
    rcases v with _ | _ | _ | _ | _ | items | _
    all_goals first
      | (cases hok; rfl)
      | (exact workItemsFold_find_ne _ _ _ _ hok h)

/-! ## Shape of `extract_weather_data` results -/

theorem tempOf_not_str (weather : List (String × JVal)) (v : JVal)
    (h : tempOf weather = .ok v) : ∀ s0, v ≠ .s s0 := by
  unfold tempOf at h
  dsimp only [] at h
  generalize htemp : dictGet weather "Temperature" (JVal.i 0) = temp at h
  split at h
  · split at h
    · split at h
      · cases h
        intro s0
        simp
      · cases h
    · cases h
      rename_i temp htr hne
      intro s0 hs
      subst hs
      exact hne s0 rfl
  · cases h
    intro s0
    simp [weatherDefaults]

theorem remarksField_find_ne (remarks : String) (m : FieldMap) (k : FieldKey)
    (h : k ≠ .remarks) : fmFind (remarksField remarks m) k = fmFind m k := by
  unfold remarksField
  split_ifs
  · exact fmFind_set_ne _ _ _ _ h
  · rfl

theorem equipField_find_ne (equipment : String) (m : FieldMap) (k : FieldKey)
    (h : k ≠ .equip) : fmFind (equipField equipment m) k = fmFind m k := by
  unfold equipField
  split_ifs
  · exact fmFind_set_ne _ _ _ _ h
  · rfl

theorem extract_weather_temp_not_str (data : List (String × JVal)) (w : WeatherData)
    (h : extract_weather_data data = .ok w) : ∀ s0, w.temperature ≠ .s s0 := by
  unfold extract_weather_data at h
  rcases hW : dictLookup data "Weather" with _ | v
  · rw [hW] at h
    cases h
    intro s0
    simp [weatherDefaults]
  · rw [hW] at h
    rcases v with _ | _ | _ | _ | _ | _ | ws
    case dict =>
      simp only [bind, Except.bind] at h
      rcases ht : tempOf ws with e | tv <;> rw [ht] at h
      · simp at h
      · rcases hh : humOf ws with e | hv <;> rw [hh] at h
        · simp at h
        · simp only [pure] at h
          cases h
          exact tempOf_not_str ws tv ht
    all_goals (cases h; intro s0; simp [weatherDefaults])


/-- Destructuring of a successful `weatherRest` run. -/
theorem weatherRest_ok_elim (w : WeatherData) (tF : JVal) (m : FieldMap)
    (h : weatherRest w tF = .ok m) :
    ∃ (t hq : Rat) (wv cv : String),
      tF.asNum = some t ∧ w.wind = .s wv ∧
      w.humidity.asNum = some hq ∧ w.conditions = .s cv ∧
      m = conditionCells (pyLower cv)
            (humidityCells hq (windCells (pyLower wv) (tempCells t []))) := by
  unfold weatherRest at h
  simp only [bind, Except.bind, pure, Except.pure] at h
  split at h
  next t hT =>
    split at h
    next wv hwind =>
      split at h
      next hq hH =>
        split at h
        next cv hcond =>
          cases h
          exact ⟨t, hq, wv, cv, hT, hwind, hH, hcond, rfl⟩
        next => exact Except.noConfusion h
      next => exact Except.noConfusion h
    next => exact Except.noConfusion h
  next => exact Except.noConfusion h

/-- Destructuring of a successful weather block. -/
theorem weatherPart_ok_elim (w : WeatherData) (m : FieldMap)
    (h : weatherPart w = .ok m) (hts : ∀ s0, w.temperature ≠ .s s0) :
    ∃ (t hq : Rat) (wv cv : String),
      w.temperature.asNum = some t ∧ w.wind = .s wv ∧
      w.humidity.asNum = some hq ∧ w.conditions = .s cv ∧
      m = conditionCells (pyLower cv)
            (humidityCells hq (windCells (pyLower wv) (tempCells t []))) := by
  unfold weatherPart at h
  -- `hts` prunes the unreachable string branch of `temp_float`
  simp only [bind, Except.bind] at h
  exact weatherRest_ok_elim w w.temperature m h

/-- Destructuring of a successful mapping tail. -/
theorem mappingTail_ok_elim (data : List (String × JVal)) (mW m : FieldMap)
    (h : mappingTail data mW = .ok m) :
    ∃ (supName classification : JVal) (remarks equipment : String),
      extract_superintendent_name data = .ok supName ∧
      extract_classification data = .ok classification ∧
      extract_remarks_data data = .ok remarks ∧
      extract_equipment_data data = .ok equipment ∧
      m = fmSet
            (footerFields
              (formatDate (dictGet data "DocumentDate" (.s ""))
                (dictGet data "Timezone" (.s "America/Los_Angeles")))
              classification
              (equipField equipment (remarksField remarks
                (certFields classification (supervisorFields supName mW)))))
            .dayOfWeek
            (.s (get_day_of_week (dictGet data "DocumentDate" (.s ""))
              (dictGet data "Timezone" (.s "America/Los_Angeles")))) := by
  unfold mappingTail at h
  simp only [bind, Except.bind, pure, Except.pure] at h
  rcases hsup : extract_superintendent_name data with e | supName <;> rw [hsup] at h
  · dsimp only [] at h
    exact Except.noConfusion h
  · dsimp only [] at h
    rcases hcls : extract_classification data with e | cls <;> rw [hcls] at h
    · dsimp only [] at h
      exact Except.noConfusion h
    · dsimp only [] at h
      rcases hrem : extract_remarks_data data with e | rem <;> rw [hrem] at h
      · dsimp only [] at h
        exact Except.noConfusion h
      · dsimp only [] at h
        rcases heqp : extract_equipment_data data with e | eqp <;> rw [heqp] at h
        · dsimp only [] at h
          exact Except.noConfusion h
        · dsimp only [] at h
          exact ⟨supName, cls, rem, eqp, rfl, rfl, rfl, rfl, (Except.ok.inj h).symm⟩

/-- Destructuring of a successful `create_field_mapping` run: names every
intermediate value and gives the exact shape of the returned mapping. -/
theorem create_field_mapping_ok_elim (data : List (String × JVal)) (m : FieldMap)
    (h : create_field_mapping data = .ok m) :
    ∃ (w : WeatherData) (t hq : Rat) (windL condL : String)
      (mPers mWork : FieldMap) (supName classification : JVal)
      (remarks equipment : String),
      extract_weather_data data = .ok w ∧
      w.temperature.asNum = some t ∧
      (∃ wv, w.wind = .s wv ∧ windL = pyLower wv) ∧
      w.humidity.asNum = some hq ∧
      (∃ cv, w.conditions = .s cv ∧ condL = pyLower cv) ∧
      personnelPart data
        (conditionCells condL (humidityCells hq (windCells windL (tempCells t [])))) =
        .ok mPers ∧
      workPart data mPers = .ok mWork ∧
      extract_superintendent_name data = .ok supName ∧
      extract_classification data = .ok classification ∧
      extract_remarks_data data = .ok remarks ∧
      extract_equipment_data data = .ok equipment ∧
      m = fmSet
            (footerFields
              (formatDate (dictGet data "DocumentDate" (.s ""))
                (dictGet data "Timezone" (.s "America/Los_Angeles")))
              classification
              (equipField equipment (remarksField remarks
                (certFields classification (supervisorFields supName mWork)))))
            .dayOfWeek
            (.s (get_day_of_week (dictGet data "DocumentDate" (.s ""))
              (dictGet data "Timezone" (.s "America/Los_Angeles")))) := by
  unfold create_field_mapping at h
  simp only [bind, Except.bind] at h
  split at h
  next => exact Except.noConfusion h
  next w hw =>
    split at h
    next => exact Except.noConfusion h
    next mWea hwea =>
      split at h
      next => exact Except.noConfusion h
      next mPers hpp =>
        split at h
        next => exact Except.noConfusion h
        next mWork hwp =>
          obtain ⟨t, hq, wv, cv, hT, hwind, hH, hcond, hm⟩ :=
            weatherPart_ok_elim w mWea hwea (extract_weather_temp_not_str data w hw)
          obtain ⟨supName, cls, rem, eqp, hsup, hcls, hrem, heqp, hm2⟩ :=
            mappingTail_ok_elim data mWork m h
          subst hm
          exact ⟨w, t, hq, pyLower wv, pyLower cv, mPers, mWork, supName, cls, rem,
            eqp, hw, hT, ⟨wv, hwind, rfl⟩, hH, ⟨cv, hcond, rfl⟩, hpp, hwp, hsup,
            hcls, hrem, heqp, hm2⟩

/-! ## C1: the temperature cells -/

/-- The five Row2 cells of `tempCells` as functions of the temperature. -/
theorem tempCells_find (t : Rat) :
    fmFind (tempCells t []) (.weatherCell 2 1) =
      (if 83 ≤ t then some (JVal.s "/Yes") else none) ∧
    fmFind (tempCells t []) (.weatherCell 2 2) =
      (if 70 ≤ t ∧ t < 83 then some (JVal.s "/Yes") else none) ∧
    fmFind (tempCells t []) (.weatherCell 2 3) =
      (if 50 ≤ t ∧ t < 70 then some (JVal.s "/Yes") else none) ∧
    fmFind (tempCells t []) (.weatherCell 2 4) =
      (if 32 ≤ t ∧ t < 50 then some (JVal.s "/Yes") else none) ∧
    fmFind (tempCells t []) (.weatherCell 2 5) =
      (if t < 32 then some (JVal.s "/Yes") else none) := by
  have hset : ∀ j c : Nat, j ≠ c →
      fmFind (fmSet [] (.weatherCell 2 j) (.s "/Yes")) (.weatherCell 2 c) = none := by
    intro j c hjc
    rw [fmFind_set_ne]
    · rfl
    · intro hx
      injection hx with h1 h2
      exact hjc h2.symm
  unfold tempCells
  by_cases h83 : (83 : ℚ) ≤ t
  · rw [if_pos h83]
    refine ⟨?_, ?_, ?_, ?_, ?_⟩
    · rw [fmFind_set_self, if_pos h83]
    · rw [hset 1 2 (by decide), if_neg (by rintro ⟨-, hlt⟩; linarith)]
    · rw [hset 1 3 (by decide), if_neg (by rintro ⟨-, hlt⟩; linarith)]
    · rw [hset 1 4 (by decide), if_neg (by rintro ⟨-, hlt⟩; linarith)]
    · rw [hset 1 5 (by decide), if_neg (by intro hlt; linarith)]
  · rw [if_neg h83]
    push_neg at h83
    by_cases h70 : (70 : ℚ) ≤ t
    · rw [if_pos h70]
      refine ⟨?_, ?_, ?_, ?_, ?_⟩
      · rw [hset 2 1 (by decide), if_neg (by intro hge; linarith)]
      · rw [fmFind_set_self, if_pos ⟨h70, h83⟩]
      · rw [hset 2 3 (by decide), if_neg (by rintro ⟨-, hlt⟩; linarith)]
      · rw [hset 2 4 (by decide), if_neg (by rintro ⟨-, hlt⟩; linarith)]
      · rw [hset 2 5 (by decide), if_neg (by intro hlt; linarith)]
    · rw [if_neg h70]
      push_neg at h70
      by_cases h50 : (50 : ℚ) ≤ t
      · rw [if_pos h50]
        refine ⟨?_, ?_, ?_, ?_, ?_⟩
        · rw [hset 3 1 (by decide), if_neg (by intro hge; linarith)]
        · rw [hset 3 2 (by decide), if_neg (by rintro ⟨hge, -⟩; linarith)]
        · rw [fmFind_set_self, if_pos ⟨h50, h70⟩]
        · rw [hset 3 4 (by decide), if_neg (by rintro ⟨-, hlt⟩; linarith)]
        · rw [hset 3 5 (by decide), if_neg (by intro hlt; linarith)]
      · rw [if_neg h50]
        push_neg at h50
        by_cases h32 : (32 : ℚ) ≤ t
        · rw [if_pos h32]
          refine ⟨?_, ?_, ?_, ?_, ?_⟩
          · rw [hset 4 1 (by decide), if_neg (by intro hge; linarith)]
          · rw [hset 4 2 (by decide), if_neg (by rintro ⟨hge, -⟩; linarith)]
          · rw [hset 4 3 (by decide), if_neg (by rintro ⟨hge, -⟩; linarith)]
          · rw [fmFind_set_self, if_pos ⟨h32, h50⟩]
          · rw [hset 4 5 (by decide), if_neg (by intro hlt; linarith)]
        · rw [if_neg h32]
          push_neg at h32
          refine ⟨?_, ?_, ?_, ?_, ?_⟩
          · rw [hset 5 1 (by decide), if_neg (by intro hge; linarith)]
          · rw [hset 5 2 (by decide), if_neg (by rintro ⟨hge, -⟩; linarith)]
          · rw [hset 5 3 (by decide), if_neg (by rintro ⟨hge, -⟩; linarith)]
          · rw [hset 5 4 (by decide), if_neg (by rintro ⟨hge, -⟩; linarith)]
          · rw [fmFind_set_self, if_pos h32]

/-- Frame reduction used by C1: under a successful run, the Row2 cells
of the final mapping come from `tempCells` alone. -/
theorem find_weather2_reduces (data : List (String × JVal)) (m : FieldMap)
    (t hq : Rat) (windL condL : String) (mPers mWork : FieldMap)
    (supName classification : JVal) (remarks equipment : String)
    (hpp : personnelPart data
      (conditionCells condL (humidityCells hq (windCells windL (tempCells t [])))) =
      .ok mPers)
    (hwp : workPart data mPers = .ok mWork)
    (hm : m = fmSet
            (footerFields
              (formatDate (dictGet data "DocumentDate" (.s ""))
                (dictGet data "Timezone" (.s "America/Los_Angeles")))
              classification
              (equipField equipment (remarksField remarks
                (certFields classification (supervisorFields supName mWork)))))
            .dayOfWeek
            (.s (get_day_of_week (dictGet data "DocumentDate" (.s ""))
              (dictGet data "Timezone" (.s "America/Los_Angeles"))))) :
    ∀ c, fmFind m (.weatherCell 2 c) = fmFind (tempCells t []) (.weatherCell 2 c) := by
  intro c
  rw [hm]
  rw [fmFind_set_ne _ _ _ _ (fun hx => FieldKey.noConfusion hx)]
  rw [footerFields_find_ne _ _ _ _
    (fun p hx => FieldKey.noConfusion hx) (fun p hx => FieldKey.noConfusion hx)
    (fun p hx => FieldKey.noConfusion hx) (fun p hx => FieldKey.noConfusion hx)
    (fun p hx => FieldKey.noConfusion hx)]
  rw [equipField_find_ne _ _ _ (fun hx => FieldKey.noConfusion hx)]
  rw [remarksField_find_ne _ _ _ (fun hx => FieldKey.noConfusion hx)]
  rw [certFields_find_ne _ _ _ (fun p hx => FieldKey.noConfusion hx)]
  rw [supervisorFields_find_ne _ _ _ (fun hx => FieldKey.noConfusion hx)
    (fun hx => FieldKey.noConfusion hx) (fun hx => FieldKey.noConfusion hx)]
  rw [workPart_find_ne data mPers mWork _ hwp (fun r c2 hx => FieldKey.noConfusion hx)]
  rw [personnelPart_find_ne data _ mPers _ hpp (fun r c2 hx => FieldKey.noConfusion hx)
    (fun c2 hx => FieldKey.noConfusion hx)]
  rw [conditionCells_find_ne _ _ _
    (by intro c2 hx; injection hx with h1 h2; exact absurd h1 (by decide))]
  rw [humidityCells_find_ne _ _ _
    (by intro c2 hx; injection hx with h1 h2; exact absurd h1 (by decide))]
  rw [windCells_find_ne _ _ _
    (by intro c2 hx; injection hx with h1 h2; exact absurd h1 (by decide))]

/-- C1: on every input on which `create_field_mapping` returns, exactly
one of the five temperature cells `Row2[0].Cell1[0]..Cell5[0]` carries
`'/Yes'`, selected by the extracted temperature `t`: Cell1 iff `t ≥ 83`,
Cell2 iff `70 ≤ t < 83`, Cell3 iff `50 ≤ t < 70`, Cell4 iff
`32 ≤ t < 50`, Cell5 iff `t < 32` (the five ranges partition the line,
so exactly one cell is present, with value `'/Yes'`). -/
theorem C1_temperature_cells (data : List (String × JVal)) (m : FieldMap)
    (h : create_field_mapping data = .ok m) :
    ∃ (w : WeatherData) (t : Rat),
      extract_weather_data data = .ok w ∧
      w.temperature.asNum = some t ∧
      fmFind m (.weatherCell 2 1) = (if 83 ≤ t then some (JVal.s "/Yes") else none) ∧
      fmFind m (.weatherCell 2 2) = (if 70 ≤ t ∧ t < 83 then some (JVal.s "/Yes") else none) ∧
      fmFind m (.weatherCell 2 3) = (if 50 ≤ t ∧ t < 70 then some (JVal.s "/Yes") else none) ∧
      fmFind m (.weatherCell 2 4) = (if 32 ≤ t ∧ t < 50 then some (JVal.s "/Yes") else none) ∧
      fmFind m (.weatherCell 2 5) = (if t < 32 then some (JVal.s "/Yes") else none) := by
  obtain ⟨w, t, hq, windL, condL, mPers, mWork, supName, cls, rem, eqp, hw, hT, hwind, hH,
    hcond, hpp, hwp, hsup, hcls, hrem, heqp, hm⟩ := create_field_mapping_ok_elim data m h
  have hred := find_weather2_reduces data m t hq windL condL mPers mWork supName cls
    rem eqp hpp hwp hm
  obtain ⟨h1, h2, h3, h4, h5⟩ := tempCells_find t
  exact ⟨w, t, hw, hT, by rw [hred 1, h1], by rw [hred 2, h2], by rw [hred 3, h3],
    by rw [hred 4, h4], by rw [hred 5, h5]⟩

/-- The mapping produced on the empty report (used as a concrete
witness input). -/
def cfmEmptyMap : FieldMap :=
  [(FieldKey.weatherCell 2 5, JVal.s "/Yes"),
   (FieldKey.weatherCell 3 1, JVal.s "/Yes"),
   (FieldKey.weatherCell 4 3, JVal.s "/Yes"),
   (FieldKey.weatherCell 1 1, JVal.s "/Yes"),
   (FieldKey.photoYes, JVal.b false),
   (FieldKey.photoNo, JVal.b true),
   (FieldKey.workDate 0, JVal.s ""),
   (FieldKey.shift 0, JVal.s "Day"),
   (FieldKey.preparedBy 0, JVal.s "Admin HHPR"),
   (FieldKey.certNo 0, JVal.s ""),
   (FieldKey.signature 0, JVal.s ""),
   (FieldKey.workDate 1, JVal.s ""),
   (FieldKey.shift 1, JVal.s "Day"),
   (FieldKey.preparedBy 1, JVal.s "Admin HHPR"),
   (FieldKey.certNo 1, JVal.s ""),
   (FieldKey.signature 1, JVal.s ""),
   (FieldKey.workDate 2, JVal.s ""),
   (FieldKey.shift 2, JVal.s "Day"),
   (FieldKey.preparedBy 2, JVal.s "Admin HHPR"),
   (FieldKey.certNo 2, JVal.s ""),
   (FieldKey.signature 2, JVal.s ""),
   (FieldKey.dayOfWeek, JVal.s "Monday")]

/-- The empty report runs successfully and produces `cfmEmptyMap`. -/
theorem create_field_mapping_empty : create_field_mapping [] = .ok cfmEmptyMap := rfl

/-- Witness for C1 at the empty report. -/
theorem C1_temperature_cells_witness :
    ∃ (w : WeatherData) (t : Rat),
      extract_weather_data [] = .ok w ∧
      w.temperature.asNum = some t ∧
      fmFind cfmEmptyMap (.weatherCell 2 1) = (if 83 ≤ t then some (JVal.s "/Yes") else none) ∧
      fmFind cfmEmptyMap (.weatherCell 2 2) = (if 70 ≤ t ∧ t < 83 then some (JVal.s "/Yes") else none) ∧
      fmFind cfmEmptyMap (.weatherCell 2 3) = (if 50 ≤ t ∧ t < 70 then some (JVal.s "/Yes") else none) ∧
      fmFind cfmEmptyMap (.weatherCell 2 4) = (if 32 ≤ t ∧ t < 50 then some (JVal.s "/Yes") else none) ∧
      fmFind cfmEmptyMap (.weatherCell 2 5) = (if t < 32 then some (JVal.s "/Yes") else none) :=
  C1_temperature_cells [] cfmEmptyMap create_field_mapping_empty

/-! ## C9: the supervisor-present checkboxes -/

/-- `supervisorFields` always writes both checkboxes, complementarily,
keyed on the truthiness of the superintendent name. -/
theorem supervisorFields_photo (sup : JVal) (m : FieldMap) :
    fmFind (supervisorFields sup m) .photoYes = some (.b sup.truthy) ∧
    fmFind (supervisorFields sup m) .photoNo = some (.b (!sup.truthy)) := by
  unfold supervisorFields
  cases ht : sup.truthy
  · rw [if_neg (by decide)]
    constructor
    · rw [fmFind_set_ne _ _ _ _ (fun hx => FieldKey.noConfusion hx), fmFind_set_self]
    · rw [fmFind_set_self]
      simp
  · rw [if_pos rfl]
    constructor
    · rw [fmFind_set_ne _ _ _ _ (fun hx => FieldKey.noConfusion hx), fmFind_set_self]
    · rw [fmFind_set_self]
      simp

/-- A personnel entry satisfying the guard of lines 95-100. -/
def isSuperEntry (p : JVal) : Prop :=
  ∃ person, p = JVal.dict person ∧
    (dictGet person "Trade" (.s "")).truthy = true ∧
    pyIn (.s "Superintendent") (dictGet person "Trade" (.s "")) = .ok true ∧
    (dictGet person "Name" (.s "")).truthy = true

/-- A successful scan returns a truthy name exactly when some entry
satisfies the guard. -/
theorem superintendentScan_truthy (ps : List JVal) (v : JVal)
    (h : superintendentScan ps = .ok v) :
    (v.truthy = true ↔ ∃ p ∈ ps, isSuperEntry p) := by
  induction ps generalizing v with
  | nil =>
    simp only [superintendentScan] at h
    cases h
    simp [JVal.truthy]
  | cons p rest ih =>
    rcases hp : p with pv | _ | _ | _ | _ | _ | person
    all_goals (
      rw [hp] at h
      simp only [superintendentScan] at h)
    case dict =>
      simp only [bind, Except.bind, pure, Except.pure] at h
      by_cases htr : (dictGet person "Trade" (.s "")).truthy
      · simp only [htr, if_true] at h
        rcases hc : pyIn (.s "Superintendent") (dictGet person "Trade" (.s ""))
          with e | c <;> rw [hc] at h
        · exact Except.noConfusion h
        · dsimp only [] at h
          by_cases hcn : (c && (dictGet person "Name" (.s "")).truthy)
          · rw [if_pos hcn] at h
            cases h
            rcases Bool.and_eq_true_iff.mp hcn with ⟨hc1, hn1⟩
            subst hc1
            constructor
            · intro _
              exact ⟨.dict person, List.mem_cons_self _ _, person, rfl, htr, hc, hn1⟩
            · intro _
              exact hn1
          · rw [if_neg hcn] at h
            have hiff := ih v h
            rw [hiff]
            constructor
            · intro ⟨q, hq, hsq⟩
              exact ⟨q, List.mem_cons_of_mem _ hq, hsq⟩
            · rintro ⟨q, hq, hsq⟩
              rcases List.mem_cons.mp hq with rfl | hq2
              · obtain ⟨person2, hpd, htr2, hin2, hn2⟩ := hsq
                cases hpd
                rw [hc] at hin2
                cases hin2
                exact absurd (Bool.and_eq_true_iff.mpr ⟨rfl, hn2⟩) hcn
              · exact ⟨q, hq2, hsq⟩
      · rw [if_neg htr] at h
        rw [ih v h]
        constructor
        · rintro ⟨q, hq, hsq⟩
          exact ⟨q, List.mem_cons_of_mem _ hq, hsq⟩
        · rintro ⟨q, hq, hsq⟩
          rcases List.mem_cons.mp hq with rfl | hq2
          · obtain ⟨person2, hpd, htr2, -⟩ := hsq
            cases hpd
            exact absurd htr2 htr
          · exact ⟨q, hq2, hsq⟩
    all_goals (
      rw [ih v h]
      constructor
      · rintro ⟨q, hq, hsq⟩
        exact ⟨q, List.mem_cons_of_mem _ hq, hsq⟩
      · rintro ⟨q, hq, hsq⟩
        rcases List.mem_cons.mp hq with rfl | hq2
        · obtain ⟨person2, hpd, -⟩ := hsq
          exact JVal.noConfusion hpd
        · exact ⟨q, hq2, hsq⟩)

/-- Frame reduction through the tail of the mapping: any key that is not
the day-of-week key, a footer key, the equipment key, the remarks key or
a CertNo key reads through to the supervisor-fields stage. -/
theorem find_reduces_to_supfields (m : FieldMap) (fd cls : JVal)
    (supName : JVal) (eqp rem : String) (mWork : FieldMap) (dow : String)
    (hm : m = fmSet (footerFields fd cls (equipField eqp (remarksField rem
      (certFields cls (supervisorFields supName mWork))))) .dayOfWeek (.s dow))
    (k : FieldKey)
    (hd : k ≠ .dayOfWeek) (hwd : ∀ p, k ≠ .workDate p) (hsh : ∀ p, k ≠ .shift p)
    (hpb : ∀ p, k ≠ .preparedBy p) (hcn : ∀ p, k ≠ .certNo p)
    (hsg : ∀ p, k ≠ .signature p) (heq : k ≠ .equip) (hrm : k ≠ .remarks) :
    fmFind m k = fmFind (supervisorFields supName mWork) k := by
  rw [hm, fmFind_set_ne _ _ _ _ hd,
    footerFields_find_ne _ _ _ _ hwd hsh hpb hcn hsg,
    equipField_find_ne _ _ _ heq, remarksField_find_ne _ _ _ hrm,
    certFields_find_ne _ _ _ hcn]

/-- C9: on every input on which `create_field_mapping` returns, the
mapping assigns both `PhotoYes[0]` and `PhotoNo[0]`, with complementary
boolean values; `PhotoYes` is `True` (and `PhotoNo` `False`) exactly
when some Personnel entry is a dict whose truthy `'Trade'` contains
`'Superintendent'` and whose `'Name'` is truthy (non-empty). -/
theorem C9_photo_checkboxes (data : List (String × JVal)) (m : FieldMap)
    (h : create_field_mapping data = .ok m) :
    ((fmFind m .photoYes = some (.b true) ∧ fmFind m .photoNo = some (.b false)) ∨
     (fmFind m .photoYes = some (.b false) ∧ fmFind m .photoNo = some (.b true))) ∧
    ((fmFind m .photoYes = some (.b true) ∧ fmFind m .photoNo = some (.b false)) ↔
      ∃ ps, dictLookup data "Personnel" = some (.list ps) ∧ ∃ p ∈ ps, isSuperEntry p) := by
  obtain ⟨w, t, hq, windL, condL, mPers, mWork, supName, cls, rem, eqp, hw, hT, hwind, hH,
    hcond, hpp, hwp, hsup, hcls, hrem, heqp, hm⟩ := create_field_mapping_ok_elim data m h
  have hYes : fmFind m .photoYes = some (.b supName.truthy) := by
    rw [find_reduces_to_supfields m _ cls supName eqp rem mWork _ hm _
      (fun hx => FieldKey.noConfusion hx) (fun p hx => FieldKey.noConfusion hx)
      (fun p hx => FieldKey.noConfusion hx) (fun p hx => FieldKey.noConfusion hx)
      (fun p hx => FieldKey.noConfusion hx) (fun p hx => FieldKey.noConfusion hx)
      (fun hx => FieldKey.noConfusion hx) (fun hx => FieldKey.noConfusion hx)]
    exact (supervisorFields_photo supName mWork).1
  have hNo : fmFind m .photoNo = some (.b (!supName.truthy)) := by
    rw [find_reduces_to_supfields m _ cls supName eqp rem mWork _ hm _
      (fun hx => FieldKey.noConfusion hx) (fun p hx => FieldKey.noConfusion hx)
      (fun p hx => FieldKey.noConfusion hx) (fun p hx => FieldKey.noConfusion hx)
      (fun p hx => FieldKey.noConfusion hx) (fun p hx => FieldKey.noConfusion hx)
      (fun hx => FieldKey.noConfusion hx) (fun hx => FieldKey.noConfusion hx)]
    exact (supervisorFields_photo supName mWork).2
  have hchar : (supName.truthy = true ↔
      ∃ ps, dictLookup data "Personnel" = some (.list ps) ∧ ∃ p ∈ ps, isSuperEntry p) := by
    unfold extract_superintendent_name at hsup
    rcases hP : dictLookup data "Personnel" with _ | v <;> rw [hP] at hsup
    · cases hsup
      simp [JVal.truthy]
    · rcases v with _ | _ | _ | _ | _ | ps | _
      case list =>
        rw [superintendentScan_truthy ps supName hsup]
        constructor
        · rintro ⟨p, hps, hsq⟩
          exact ⟨ps, rfl, p, hps, hsq⟩
        · rintro ⟨ps2, hps2, p, hmem, hsq⟩
          have : ps2 = ps := by
            injection hps2 with h1
            injection h1 with h2
            exact h2.symm
          subst this
          exact ⟨p, hmem, hsq⟩
      all_goals (
        cases hsup
        constructor
        · intro htr
          simp [JVal.truthy] at htr
        · rintro ⟨ps2, hps2, -⟩
          injection hps2 with h1
          exact JVal.noConfusion h1)
  refine ⟨?_, ?_⟩
  · cases hb : supName.truthy
    · right
      rw [hb] at hYes
      rw [hb] at hNo
      exact ⟨hYes, by simpa using hNo⟩
    · left
      rw [hb] at hYes
      rw [hb] at hNo
      exact ⟨hYes, by simpa using hNo⟩
  · rw [← hchar]
    cases hb : supName.truthy
    · rw [hb] at hYes
      simp [hYes]
    · rw [hb] at hYes hNo
      simp only [Bool.not_true] at hNo
      simp [hYes, hNo]

/-- A report with one superintendent entry (witness input). -/
def dataSup : List (String × JVal) :=
  [("Personnel", .list [.dict [("Trade", .s "Superintendent"), ("Name", .s "Jane Roe"),
    ("Contractor", .s "ACME"), ("Count", .i 3)]])]

/-- The mapping produced on `dataSup`. -/
def cfmSupMap : FieldMap :=
  [(FieldKey.weatherCell 2 5, JVal.s "/Yes"),
   (FieldKey.weatherCell 3 1, JVal.s "/Yes"),
   (FieldKey.weatherCell 4 3, JVal.s "/Yes"),
   (FieldKey.weatherCell 1 1, JVal.s "/Yes"),
   (FieldKey.contractorCell 0 1, JVal.s "ACME"),
   (FieldKey.contractorCell 0 2, JVal.s "8"),
   (FieldKey.personnelCell 1, JVal.s "3"),
   (FieldKey.onSiteSupervisor, JVal.s "Jane Roe"),
   (FieldKey.photoYes, JVal.b true),
   (FieldKey.photoNo, JVal.b false),
   (FieldKey.workDate 0, JVal.s ""),
   (FieldKey.shift 0, JVal.s "Day"),
   (FieldKey.preparedBy 0, JVal.s "Admin HHPR"),
   (FieldKey.certNo 0, JVal.s ""),
   (FieldKey.signature 0, JVal.s ""),
   (FieldKey.workDate 1, JVal.s ""),
   (FieldKey.shift 1, JVal.s "Day"),
   (FieldKey.preparedBy 1, JVal.s "Admin HHPR"),
   (FieldKey.certNo 1, JVal.s ""),
   (FieldKey.signature 1, JVal.s ""),
   (FieldKey.workDate 2, JVal.s ""),
   (FieldKey.shift 2, JVal.s "Day"),
   (FieldKey.preparedBy 2, JVal.s "Admin HHPR"),
   (FieldKey.certNo 2, JVal.s ""),
   (FieldKey.signature 2, JVal.s ""),
   (FieldKey.dayOfWeek, JVal.s "Monday")]

set_option maxHeartbeats 1600000 in
/-- `dataSup` runs successfully and produces `cfmSupMap`. -/
theorem create_field_mapping_dataSup : create_field_mapping dataSup = .ok cfmSupMap := by
  rfl

/-- Witness for C9 at `dataSup`. -/
theorem C9_photo_checkboxes_witness :
    ((fmFind cfmSupMap .photoYes = some (.b true) ∧
      fmFind cfmSupMap .photoNo = some (.b false)) ∨
     (fmFind cfmSupMap .photoYes = some (.b false) ∧
      fmFind cfmSupMap .photoNo = some (.b true))) ∧
    ((fmFind cfmSupMap .photoYes = some (.b true) ∧
      fmFind cfmSupMap .photoNo = some (.b false)) ↔
      ∃ ps, dictLookup dataSup "Personnel" = some (.list ps) ∧ ∃ p ∈ ps, isSuperEntry p) :=
  C9_photo_checkboxes dataSup cfmSupMap create_field_mapping_dataSup

/-! ## C8: the contractor table rows -/

/-- `contractor_totals` (lines 269-283), as left by a successful
personnel aggregation. -/
def contractorTotals (data : List (String × JVal)) : Except PyErr (List (JVal × JVal)) :=
  match dictLookup data "Personnel" with
  | some (.list ps) => (ps.foldlM personnelStep ⟨[], [], none⟩).map (fun st => st.ct)
  | _ => .ok []

/-- One personnel step either keeps `contractor_totals` or appends one
entry with the fixed hours value `8` (line 283). -/
theorem personnelStep_ct (st : PersonnelState) (p : JVal) (st1 : PersonnelState)
    (h : personnelStep st p = .ok st1) :
    st1.ct = st.ct ∨ ∃ c, st1.ct = st.ct ++ [(c, JVal.i 8)] := by
  unfold personnelStep at h
  rcases p with _ | _ | _ | _ | _ | _ | person
  all_goals try (cases h; exact Or.inl rfl)
  simp only [bind, Except.bind, pure, Except.pure] at h
  split at h
  · cases h
    exact Or.inl rfl
  · split at h
    · exact Except.noConfusion h
    · repeat' split at h
      all_goals (
        first
        | exact Except.noConfusion h
        | (try dsimp only [] at h
           cases h
           try dsimp only []
           first
           | exact Or.inl rfl
           | exact Or.inr ⟨_, rfl⟩))

/-- Every `contractor_totals` value is the fixed `8` of line 283. -/
theorem personnelFold_ct_eight (ps : List JVal) (st0 st : PersonnelState)
    (h : ps.foldlM personnelStep st0 = .ok st) (h0 : ∀ x ∈ st0.ct, x.2 = JVal.i 8) :
    ∀ x ∈ st.ct, x.2 = JVal.i 8 := by
  induction ps generalizing st0 with
  | nil =>
    simp only [List.foldlM] at h
    cases h
    exact h0
  | cons p rest ih =>
    simp only [List.foldlM_cons, bind, Except.bind] at h
    rcases hs : personnelStep st0 p with e | st1 <;> rw [hs] at h
    · exact Except.noConfusion h
    · refine ih st1 h ?_
      rcases personnelStep_ct st0 p st1 hs with hct | ⟨c, hct⟩
      · rw [hct]
        exact h0
      · rw [hct]
        intro x hx
        rcases List.mem_append.mp hx with hx1 | hx2
        · exact h0 x hx1
        · simp only [List.mem_singleton] at hx2
          subst hx2
          rfl

/-- The contractor-row fold leaves row `r` alone when no processed index
is `r`. -/
theorem crFold_out (l : List (Nat × JVal × JVal)) (m : FieldMap) (r c : Nat)
    (hr : ∀ x ∈ l, x.1 ≠ r) :
    fmFind (l.foldl
      (fun acc rkv =>
        (fmSet (fmSet acc (.contractorCell rkv.1 1) rkv.2.1)
          (.contractorCell rkv.1 2) (.s (pyStr rkv.2.2)))) m) (.contractorCell r c) =
      fmFind m (.contractorCell r c) := by
  induction l generalizing m with
  | nil => rfl
  | cons x rest ih =>
    simp only [List.foldl]
    rw [ih _ (fun y hy => hr y (List.mem_cons_of_mem _ hy))]
    have hx : x.1 ≠ r := hr x (List.mem_cons_self _ _)
    rw [fmFind_set_ne, fmFind_set_ne]
    · intro hcontra
      injection hcontra with h1 h2
      exact hx h1.symm
    · intro hcontra
      injection hcontra with h1 h2
      exact hx h1.symm

/-- The contractor-row fold writes row `r`, Cell2, from the `r - n`-th
entry. -/
theorem crFold_at (l : List (JVal × JVal)) (n r : Nat) (m : FieldMap)
    (hb : n ≤ r) (hlt : r - n < l.length) :
    ∃ x, l.get? (r - n) = some x ∧
      fmFind ((l.enumFrom n).foldl
        (fun acc rkv =>
          (fmSet (fmSet acc (.contractorCell rkv.1 1) rkv.2.1)
            (.contractorCell rkv.1 2) (.s (pyStr rkv.2.2)))) m) (.contractorCell r 2) =
        some (.s (pyStr x.2)) := by
  induction l generalizing n m with
  | nil => exact absurd hlt (by simp)
  | cons x rest ih =>
    simp only [List.enumFrom, List.foldl]
    by_cases hrn : r = n
    · subst hrn
      refine ⟨x, by simp, ?_⟩
      rw [crFold_out]
      · rw [fmFind_set_self]
      · intro y hy
        rcases List.mem_enumFrom hy with ⟨h1, h2, h3⟩
        omega
    · have hb' : n + 1 ≤ r := by omega
      have hlt' : r - (n + 1) < rest.length := by
        simp only [List.length_cons] at hlt
        omega
      obtain ⟨y, hy, hfind⟩ := ih (n + 1)
        (fmSet (fmSet m (.contractorCell n 1) x.1) (.contractorCell n 2) (.s (pyStr x.2)))
        hb' hlt'
      refine ⟨y, ?_, hfind⟩
      rw [show r - n = (r - (n + 1)) + 1 by omega]
      simpa using hy

/-- Characterization of `contractorRows` (lines 312-318): row `r` Cell2
gets the `r`-th contractor's hours when `r` is within the first
`min 10 |ct|` rows; other rows read through. -/
theorem contractorRows_char (m : FieldMap) (ct : List (JVal × JVal)) (r : Nat) :
    (∀ h : r < (ct.take 10).length,
      ∃ x, (ct.take 10).get? r = some x ∧
        fmFind (contractorRows m ct) (.contractorCell r 2) = some (.s (pyStr x.2))) ∧
    ((ct.take 10).length ≤ r →
      ∀ c, fmFind (contractorRows m ct) (.contractorCell r c) =
        fmFind m (.contractorCell r c)) := by
  constructor
  · intro hlen
    have := crFold_at (ct.take 10) 0 r m (Nat.zero_le r) (by simpa using hlen)
    simpa [contractorRows, List.enum] using this
  · intro hlen c
    unfold contractorRows
    rw [List.enum]
    rw [crFold_out]
    intro y hy
    rcases List.mem_enumFrom hy with ⟨h1, h2, h3⟩
    omega

/-- C8: on every successful run, every written ContractorTable Cell2
value is the constant string `'8'` (independent of the entries' `Count`
values), no row beyond the first 10 exists, and row `r` exists exactly
when `r` is below `min |contractor_totals| 10` — the contractors in
`contractor_totals` being the distinct truthy `'Contractor'` values in
input order. -/
theorem C8_contractor_hours (data : List (String × JVal)) (m : FieldMap)
    (h : create_field_mapping data = .ok m) :
    (∀ r v, fmFind m (.contractorCell r 2) = some v → v = .s "8") ∧
    (∀ r, 10 ≤ r → fmFind m (.contractorCell r 1) = none ∧
      fmFind m (.contractorCell r 2) = none) ∧
    (∃ ct, contractorTotals data = .ok ct ∧
      ∀ r, ((fmFind m (.contractorCell r 2)).isSome = true ↔ r < min ct.length 10)) := by
  obtain ⟨w, t, hq, windL, condL, mPers, mWork, supName, cls, rem, eqp, hw, hT, hwind, hH,
    hcond, hpp, hwp, hsup, hcls, hrem, heqp, hm⟩ := create_field_mapping_ok_elim data m h
  have hfr : ∀ r c, fmFind m (.contractorCell r c) = fmFind mPers (.contractorCell r c) := by
    intro r c
    rw [find_reduces_to_supfields m _ cls supName eqp rem mWork _ hm _
      (fun hx => FieldKey.noConfusion hx) (fun p hx => FieldKey.noConfusion hx)
      (fun p hx => FieldKey.noConfusion hx) (fun p hx => FieldKey.noConfusion hx)
      (fun p hx => FieldKey.noConfusion hx) (fun p hx => FieldKey.noConfusion hx)
      (fun hx => FieldKey.noConfusion hx) (fun hx => FieldKey.noConfusion hx)]
    rw [supervisorFields_find_ne _ _ _ (fun hx => FieldKey.noConfusion hx)
      (fun hx => FieldKey.noConfusion hx) (fun hx => FieldKey.noConfusion hx)]
    exact workPart_find_ne data mPers mWork _ hwp (fun r2 c2 hx => FieldKey.noConfusion hx)
  have hbase : ∀ r c, fmFind
      (conditionCells condL (humidityCells hq (windCells windL (tempCells t []))))
      (.contractorCell r c) = none := by
    intro r c
    rw [conditionCells_find_ne _ _ _ (fun c2 hx => FieldKey.noConfusion hx),
      humidityCells_find_ne _ _ _ (fun c2 hx => FieldKey.noConfusion hx),
      windCells_find_ne _ _ _ (fun c2 hx => FieldKey.noConfusion hx),
      tempCells_find_ne _ _ _ (fun c2 hx => FieldKey.noConfusion hx)]
    rfl
  unfold personnelPart at hpp
  rcases hP : dictLookup data "Personnel" with _ | v <;> rw [hP] at hpp
  · cases hpp
    refine ⟨?_, ?_, [], by unfold contractorTotals; rw [hP], ?_⟩
    · intro r v hv
      rw [hfr r 2, hbase r 2] at hv
      exact Option.noConfusion hv
    · intro r _
      exact ⟨by rw [hfr r 1, hbase r 1], by rw [hfr r 2, hbase r 2]⟩
    · intro r
      rw [hfr r 2, hbase r 2]
      simp
  · rcases v with _ | _ | _ | _ | _ | ps | _
    case list =>
      simp only [bind, Except.bind] at hpp
      rcases hst : ps.foldlM personnelStep ⟨[], [], none⟩ with e | st <;> rw [hst] at hpp
      · exact Except.noConfusion hpp
      · dsimp only [] at hpp
        cases hpp
        have h8 : ∀ x ∈ st.ct, x.2 = JVal.i 8 :=
          personnelFold_ct_eight ps _ st hst (by intro x hx; simp at hx)
        have htc : ∀ r c,
            fmFind (tradeCols (contractorRows
                (conditionCells condL (humidityCells hq (windCells windL (tempCells t []))))
                st.ct) st.tt (st.tcm.getD tradeColumnBase)) (.contractorCell r c) =
            fmFind (contractorRows
                (conditionCells condL (humidityCells hq (windCells windL (tempCells t []))))
                st.ct) (.contractorCell r c) := by
          intro r c
          exact tradeCols_find_ne _ _ _ _ (fun c2 hx => FieldKey.noConfusion hx)
        have hlen : (st.ct.take 10).length = min st.ct.length 10 := by
          rw [List.length_take, Nat.min_comm]
        refine ⟨?_, ?_, st.ct,
          by unfold contractorTotals; rw [hP]; dsimp only []; rw [hst]; rfl, ?_⟩
        · intro r v hv
          rw [hfr r 2, htc r 2] at hv
          by_cases hrange : r < (st.ct.take 10).length
          · obtain ⟨x, hx, hfind⟩ :=
              (contractorRows_char _ st.ct r).1 hrange
            rw [hfind] at hv
            have hx8 : x.2 = JVal.i 8 :=
              h8 x (List.take_subset 10 st.ct (List.get?_mem hx))
            rw [hx8] at hv
            cases hv
            rfl
          · rw [(contractorRows_char _ st.ct r).2 (by omega) 2, hbase r 2] at hv
            exact Option.noConfusion hv
        · intro r hr10
          have hge : (st.ct.take 10).length ≤ r := by
            rw [hlen]
            omega
          constructor
          · rw [hfr r 1, htc r 1, (contractorRows_char _ st.ct r).2 hge 1, hbase r 1]
          · rw [hfr r 2, htc r 2, (contractorRows_char _ st.ct r).2 hge 2, hbase r 2]
        · intro r
          rw [hfr r 2, htc r 2]
          by_cases hrange : r < (st.ct.take 10).length
          · obtain ⟨x, hx, hfind⟩ := (contractorRows_char _ st.ct r).1 hrange
            rw [hfind]
            simp only [Option.isSome_some, true_iff]
            omega
          · rw [(contractorRows_char _ st.ct r).2 (by omega) 2, hbase r 2]
            simp only [Option.isSome_none, Bool.false_eq_true, false_iff]
            omega
    all_goals (
      cases hpp
      refine ⟨?_, ?_, [], by unfold contractorTotals; rw [hP], ?_⟩
      · intro r v hv
        rw [hfr r 2, hbase r 2] at hv
        exact Option.noConfusion hv
      · intro r _
        exact ⟨by rw [hfr r 1, hbase r 1], by rw [hfr r 2, hbase r 2]⟩
      · intro r
        rw [hfr r 2, hbase r 2]
        simp)

/-- Witness for C8 at `dataSup`. -/
theorem C8_contractor_hours_witness :
    (∀ r v, fmFind cfmSupMap (.contractorCell r 2) = some v → v = .s "8") ∧
    (∀ r, 10 ≤ r → fmFind cfmSupMap (.contractorCell r 1) = none ∧
      fmFind cfmSupMap (.contractorCell r 2) = none) ∧
    (∃ ct, contractorTotals dataSup = .ok ct ∧
      ∀ r, ((fmFind cfmSupMap (.contractorCell r 2)).isSome = true ↔ r < min ct.length 10)) :=
  C8_contractor_hours dataSup cfmSupMap create_field_mapping_dataSup

/-! ## C4: weather defaults and the humidity keyword chain -/

/-- C4: when `'Weather'` is absent or not a dict, all four defaults are
returned (`temperature = 0`, `wind = 'Calm'`, `humidity = 50`,
`conditions = 'Clear'`); when it is a dict, each absent sub-key yields
its default, and a string `'Humidity'` goes through the
case-insensitive keyword chain dry→25, low→35, medium/med→60, high→80,
otherwise 50 (earlier keywords win, as in the source's `if/elif`). -/
theorem C4_weather_defaults (data : List (String × JVal)) :
    (dictLookup data "Weather" = none →
      extract_weather_data data = .ok ⟨.i 0, .s "Calm", .i 50, .s "Clear"⟩) ∧
    (∀ v, dictLookup data "Weather" = some v → (∀ w, v ≠ .dict w) →
      extract_weather_data data = .ok ⟨.i 0, .s "Calm", .i 50, .s "Clear"⟩) ∧
    (∀ weather wd, dictLookup data "Weather" = some (.dict weather) →
      extract_weather_data data = .ok wd →
      (dictLookup weather "Temperature" = none → wd.temperature = .i 0) ∧
      (dictLookup weather "Wind" = none → wd.wind = .s "Calm") ∧
      (dictLookup weather "Humidity" = none → wd.humidity.asNum = some 50) ∧
      (dictLookup weather "Conditions" = none → wd.conditions = .s "Clear") ∧
      (∀ hs, dictLookup weather "Humidity" = some (.s hs) →
        wd.humidity = .i (
          if strContains (pyLower hs) "dry" then 25
          else if strContains (pyLower hs) "low" then 35
          else if strContains (pyLower hs) "medium" || strContains (pyLower hs) "med" then 60
          else if strContains (pyLower hs) "high" then 80
          else 50))) := by
  refine ⟨?_, ?_, ?_⟩
  · intro hA
    unfold extract_weather_data
    rw [hA]
    rfl
  · intro v hV hnd
    unfold extract_weather_data
    rw [hV]
    rcases v with _ | _ | _ | _ | _ | _ | wv
    case dict => exact absurd rfl (hnd wv)
    all_goals rfl
  · intro weather wd hW hok
    unfold extract_weather_data at hok
    rw [hW] at hok
    simp only [bind, Except.bind] at hok
    rcases ht : tempOf weather with e | tv <;> rw [ht] at hok
    · exact Except.noConfusion hok
    rcases hh : humOf weather with e | hv <;> rw [hh] at hok
    · exact Except.noConfusion hok
    dsimp only [pure] at hok
    cases hok
    refine ⟨?_, ?_, ?_, ?_, ?_⟩
    · intro hnone
      have : tempOf weather = .ok (.i 0) := by
        unfold tempOf
        simp [dictGet, hnone, JVal.truthy, weatherDefaults]
      rw [this] at ht
      exact (Except.ok.inj ht).symm
    · intro hnone
      show windOf weather = .s "Calm"
      unfold windOf
      simp [dictGet, hnone, JVal.truthy]
    · intro hnone
      have : humOf weather = .ok (.f 50) := by
        unfold humOf
        simp [dictGet, hnone, JVal.truthy, pyFloat]
      rw [this] at hh
      have hv50 : hv = .f 50 := (Except.ok.inj hh).symm
      show hv.asNum = some 50
      rw [hv50]
      rfl
    · intro hnone
      show condOf weather = .s "Clear"
      unfold condOf
      simp [dictGet, hnone, JVal.truthy]
    · intro hs hsome
      have : humOf weather = .ok (.i (humidityOfString hs)) := by
        unfold humOf
        simp [dictGet, hsome]
      rw [this] at hh
      have hvv : hv = .i (humidityOfString hs) := (Except.ok.inj hh).symm
      show hv = _
      rw [hvv]
      rfl

/-- A report whose Weather dict has only a textual humidity. -/
def dataHum : List (String × JVal) :=
  [("Weather", .dict [("Humidity", .s "Very Dry")])]

/-- Witness for C4 at `dataHum`: temperature defaults to 0 and
`'Very Dry'` maps to 25. -/
theorem C4_weather_defaults_witness :
    (⟨.i 0, .s "Calm", .i 25, .s "Clear"⟩ : WeatherData).temperature = JVal.i 0 ∧
    (⟨.i 0, .s "Calm", .i 25, .s "Clear"⟩ : WeatherData).humidity = JVal.i 25 := by
  have h := (C4_weather_defaults dataHum).2.2
    [("Humidity", JVal.s "Very Dry")] ⟨.i 0, .s "Calm", .i 25, .s "Clear"⟩ rfl (by rfl)
  exact ⟨h.1 rfl, (h.2.2.2.2 "Very Dry" rfl).trans (by rfl)⟩

/-! ## C7: `get_day_of_week` totality and fallback -/

/-- C7: for every date string and timezone string the result is one of
the seven English weekday names, and it is the fallback `'Monday'`
whenever the date string does not parse.  The function is total by
construction (`try/except` catches everything), so it never raises. -/
theorem C7_day_of_week (ds tz : String) :
    get_day_of_week (.s ds) (.s tz) ∈ daysListPy ∧
    (parsedDate ds = none → get_day_of_week (.s ds) (.s tz) = "Monday") := by
  have hmem : ∀ n : Nat, daysListPy.getD n "Monday" ∈ daysListPy := by
    intro n
    by_cases hn : n < 7
    · interval_cases n <;> simp [daysListPy]
    · push_neg at hn
      rw [List.getD_eq_default _ _ (by simpa [daysListPy] using hn)]
      simp [daysListPy]
  unfold get_day_of_week
  dsimp only []
  rcases hp : parsedDate ds with _ | dt
  · dsimp only []
    exact ⟨by simp [daysListPy], fun _ => rfl⟩
  · dsimp only []
    refine ⟨?_, fun hcontra => Option.noConfusion hcontra⟩
    split <;> exact hmem _

/-- Witness for C7 at an unparseable date and unknown zone. -/
theorem C7_day_of_week_witness :
    get_day_of_week (.s "not a date") (.s "Mars/Olympus") ∈ daysListPy ∧
    get_day_of_week (.s "not a date") (.s "Mars/Olympus") = "Monday" :=
  ⟨(C7_day_of_week "not a date" "Mars/Olympus").1,
   (C7_day_of_week "not a date" "Mars/Olympus").2 (by rfl)⟩

/-! ## C5: statelessness of the conversion -/

/-- The field-mapping dict as handed to `fill_pdf_form`: string keys. -/
def renderMapping (m : FieldMap) : List (String × JVal) :=
  m.map (fun kv => (kv.1.render, kv.2))

/-- One full conversion: `create_field_mapping` then `fill_pdf_form`,
starting from instance state `cs` (the `_radio_button_counters` left by
any earlier call on the same converter object). -/
def convertReport (cs : Counters) (template : PdfDoc) (data : List (String × JVal))
    (photos : List Photo) : Except PyErr (PdfDoc × Counters) := do
  let m ← create_field_mapping data
  fill_pdf_form cs template (renderMapping m) photos

/-- C5: the conversion is stateless and deterministic — the result (both
the produced PDF and the final counter state) is the same function of
(input, photos, template) whatever `_radio_button_counters` an earlier
call left behind, because line 396 resets that state before it is ever
read.  Determinism of two runs on identical inputs is immediate since
`convertReport` is a function of its arguments. -/
theorem C5_stateless (cs1 cs2 : Counters) (template : PdfDoc)
    (data : List (String × JVal)) (photos : List Photo) :
    convertReport cs1 template data photos = convertReport cs2 template data photos := rfl

/-- Witness for C5 (no hypotheses; concrete instantiation for good
measure): two runs from different leftover counter states coincide. -/
theorem C5_stateless_witness :
    convertReport [("DayMon", 7)] ⟨[]⟩ [] [] = convertReport [] ⟨[]⟩ [] [] :=
  C5_stateless [("DayMon", 7)] [] ⟨[]⟩ [] []

/-! ## C2: the frame property of `fill_pdf_form` -/

/-- `applyField` writes only `/V` and `/AS`: title and type survive. -/
theorem applyField_title (k : String) (v : JVal) (a : Annot) :
    (applyField k v a).title = a.title ∧ (applyField k v a).ftype = a.ftype := by
  unfold applyField
  split
  · split_ifs <;> exact ⟨rfl, rfl⟩
  · exact ⟨rfl, rfl⟩

/-- An annotation whose title is not the field name is untouched. -/
theorem applyField_ne (k : String) (v : JVal) (a : Annot) (h : a.title ≠ some k) :
    applyField k v a = a := by
  unfold applyField
  split
  next t ft hT hF =>
    rw [if_neg]
    intro ht
    exact h (by rw [hT, ht])
  next => rfl

/-- The first pass acts on each annotation independently. -/
theorem applyMapping_eq_map (mp : List (String × JVal)) (annots : List Annot) :
    applyMapping mp annots = annots.map (fun a =>
      mp.foldl (fun a kv => if kv.1 = "day_of_week" then a else applyField kv.1 kv.2 a) a) := by
  induction mp generalizing annots with
  | nil => simp [applyMapping]
  | cons kv rest ih =>
    unfold applyMapping
    by_cases hd : kv.1 = "day_of_week"
    · simp only [List.foldl, hd, if_true]
      rw [show (List.foldl (fun acc kv =>
          if kv.1 = "day_of_week" then acc else acc.map (applyField kv.1 kv.2)) annots rest) =
          applyMapping rest annots from rfl, ih]
    · simp only [List.foldl, hd, if_false]
      rw [show (List.foldl (fun acc kv =>
          if kv.1 = "day_of_week" then acc else acc.map (applyField kv.1 kv.2))
          (annots.map (applyField kv.1 kv.2)) rest) =
          applyMapping rest (annots.map (applyField kv.1 kv.2)) from rfl, ih, List.map_map]
      rfl

/-- The per-annotation fold is the identity when every mapping entry is
the day key or has a different name. -/
theorem foldl_apply_id (mp : List (String × JVal)) (a : Annot)
    (h : ∀ kv ∈ mp, kv.1 = "day_of_week" ∨ a.title ≠ some kv.1) :
    mp.foldl (fun a kv => if kv.1 = "day_of_week" then a else applyField kv.1 kv.2 a) a = a := by
  induction mp with
  | nil => rfl
  | cons kv rest ih =>
    simp only [List.foldl]
    have ihx := ih (fun kv2 h2 => h kv2 (List.mem_cons_of_mem _ h2))
    by_cases hd : kv.1 = "day_of_week"
    · rw [if_pos hd]
      exact ihx
    · rw [if_neg hd]
      rcases h kv (List.mem_cons_self _ _) with hd2 | hne
      · exact absurd hd2 hd
      · rw [applyField_ne _ _ _ hne]
        exact ihx

/-- An annotation is a day-of-week radio button (the condition of
line 450). -/
def isDayBtn (a : Annot) : Prop :=
  a.ftype = some "/Btn" ∧ ∃ t0, a.title = some t0 ∧ strContains t0 "Day" = true

/-- The day pass keeps length and leaves non-day-button annotations
untouched. -/
theorem dayPassAnnots_preserve (dayv : JVal) (target : String) (l : List Annot)
    (cs : Counters) (l' : List Annot) (cs' : Counters)
    (h : dayPassAnnots dayv target l cs = .ok (l', cs')) :
    l'.length = l.length ∧
    ∀ i a, l.get? i = some a → ¬isDayBtn a → l'.get? i = some a := by
  induction l generalizing cs l' cs' with
  | nil =>
    simp only [dayPassAnnots] at h
    cases h
    exact ⟨rfl, fun i a hi => by simp at hi⟩
  | cons a rest ih =>
    simp only [dayPassAnnots, bind, Except.bind, pure, Except.pure] at h
    rcases hT : a.title with _ | t <;> rw [hT] at h <;> try dsimp only [] at h
    case none =>
      -- the `(some t, some ft)` outer match fails
      rcases hr : dayPassAnnots dayv target rest cs with e | pr <;> rw [hr] at h
      · exact Except.noConfusion h
      · dsimp only [] at h
        cases h
        obtain ⟨hlen, hget⟩ := ih _ _ _ hr
        refine ⟨by simp [hlen], ?_⟩
        intro i b hi hnb
        cases i with
        | zero =>
          simp at hi ⊢
          exact hi
        | succ j =>
          simp only [List.get?] at hi ⊢
          exact hget j b hi hnb
    case some =>
      rcases hF : a.ftype with _ | ft <;> rw [hF] at h <;> try dsimp only [] at h
      case none =>
        rcases hr : dayPassAnnots dayv target rest cs with e | pr <;> rw [hr] at h
        · exact Except.noConfusion h
        · dsimp only [] at h
          cases h
          obtain ⟨hlen, hget⟩ := ih _ _ _ hr
          refine ⟨by simp [hlen], ?_⟩
          intro i b hi hnb
          cases i with
          | zero =>
            simp at hi ⊢
            exact hi
          | succ j =>
            simp only [List.get?] at hi ⊢
            exact hget j b hi hnb
      case some =>
        by_cases hbtn : (ft = "/Btn" && strContains t "Day") = true
        · rw [if_pos hbtn] at h
          rcases hday : dayv with d | _ | _ | _ | _ | _ | _ <;> rw [hday] at h <;>
            dsimp only [] at h
          case' _ => subst hday
          · rcases hr : dayPassAnnots (JVal.s d) target rest (counterBump cs t) with e | pr <;>
              rw [hr] at h
            · exact Except.noConfusion h
            · dsimp only [] at h
              cases h
              obtain ⟨hlen, hget⟩ := ih _ _ _ hr
              refine ⟨by simp [hlen], ?_⟩
              intro i b hi hnb
              cases i with
              | zero =>
                simp only [List.get?] at hi
                cases hi
                have hft : ft = "/Btn" := by
                  have h1 := (Bool.and_eq_true_iff.mp hbtn).1
                  simpa using h1
                refine absurd ⟨?_, t, hT, ?_⟩ hnb
                · rw [hF, hft]
                · exact (Bool.and_eq_true_iff.mp hbtn).2
              | succ j =>
                simp only [List.get?] at hi ⊢
                exact hget j b hi hnb
          all_goals exact Except.noConfusion h
        · rw [if_neg hbtn] at h
          rcases hr : dayPassAnnots dayv target rest cs with e | pr <;> rw [hr] at h
          · exact Except.noConfusion h
          · dsimp only [] at h
            cases h
            obtain ⟨hlen, hget⟩ := ih _ _ _ hr
            refine ⟨by simp [hlen], ?_⟩
            intro i b hi hnb
            cases i with
            | zero =>
              simp at hi ⊢
              exact hi
            | succ j =>
              simp only [List.get?] at hi ⊢
              exact hget j b hi hnb

/-- Recursive form of the page loop of the day pass. -/
def dayPagesSpec (dayv : JVal) (target : String) :
    List Page → Counters → Except PyErr (List Page × Counters)
  | [], cs => .ok ([], cs)
  | pg :: rest, cs => do
    let pr ← dayPassAnnots dayv target pg.annots cs
    let r ← dayPagesSpec dayv target rest pr.2
    pure ({ pg with annots := pr.1 } :: r.1, r.2)

/-- The accumulator fold of `dayPass` equals the recursive form. -/
theorem dayFold_eq_spec (dayv : JVal) (target : String) (pages : List Page)
    (acc : List Page) (cs : Counters) :
    (pages.foldlM
      (fun (acc : List Page × Counters) pg => do
        let pr ← dayPassAnnots dayv target pg.annots acc.2
        pure (acc.1 ++ [{ pg with annots := pr.1 }], pr.2))
      ((acc, cs) : List Page × Counters)) =
    (dayPagesSpec dayv target pages cs).map (fun r => (acc ++ r.1, r.2)) := by
  induction pages generalizing acc cs with
  | nil =>
    simp [dayPagesSpec, List.foldlM, Except.map]
    rfl
  | cons pg rest ih =>
    simp only [bind, Except.bind, pure, Except.pure] at ih
    simp only [List.foldlM_cons, dayPagesSpec, bind, Except.bind]
    try dsimp only []
    rcases hpr : dayPassAnnots dayv target pg.annots cs with e | pr
    · rfl
    · dsimp only [pure, Except.pure]
      rw [ih]
      rcases hr : dayPagesSpec dayv target rest pr.2 with e | r
      · rfl
      · simp [Except.map]

/-- The document-level day pass keeps the page structure and all
non-day-button annotations. -/
theorem dayPass_preserve (dayv : JVal) (target : String) (pdf : PdfDoc)
    (cs : Counters) (out : PdfDoc) (cs' : Counters)
    (h : dayPass dayv target pdf cs = .ok (out, cs')) :
    out.pages.length = pdf.pages.length ∧
    (∀ pi pg, pdf.pages.get? pi = some pg →
      ∃ pg', out.pages.get? pi = some pg' ∧
        pg'.xobjects = pg.xobjects ∧ pg'.drawOps = pg.drawOps ∧
        pg'.annots.length = pg.annots.length ∧
        (∀ ai a, pg.annots.get? ai = some a → ¬isDayBtn a → pg'.annots.get? ai = some a)) := by
  unfold dayPass at h
  rw [dayFold_eq_spec] at h
  simp only [bind, Except.bind, pure, Except.pure] at h
  rcases hs : dayPagesSpec dayv target pdf.pages cs with e | r <;> rw [hs] at h
  · exact Except.noConfusion h
  · simp only [Except.map] at h
    try dsimp only [] at h
    cases h
    -- induction over the pages against the spec
    suffices hgen : ∀ (pages : List Page) (cs0 : Counters) (r0 : List Page × Counters),
        dayPagesSpec dayv target pages cs0 = .ok r0 →
        r0.1.length = pages.length ∧
        (∀ pi pg, pages.get? pi = some pg →
          ∃ pg', r0.1.get? pi = some pg' ∧
            pg'.xobjects = pg.xobjects ∧ pg'.drawOps = pg.drawOps ∧
            pg'.annots.length = pg.annots.length ∧
            (∀ ai a, pg.annots.get? ai = some a → ¬isDayBtn a →
              pg'.annots.get? ai = some a)) by
      obtain ⟨hl, hg⟩ := hgen pdf.pages cs r hs
      constructor
      · simpa using hl
      · intro pi pg hpi
        obtain ⟨pg', h1, h2⟩ := hg pi pg hpi
        exact ⟨pg', by simpa using h1, h2⟩
    intro pages
    induction pages with
    | nil =>
      intro cs0 r0 h0
      simp only [dayPagesSpec] at h0
      cases h0
      exact ⟨rfl, fun pi pg hpi => by simp at hpi⟩
    | cons pg rest ih =>
      intro cs0 r0 h0
      simp only [dayPagesSpec, bind, Except.bind, pure, Except.pure] at h0
      rcases hpr : dayPassAnnots dayv target pg.annots cs0 with e | pr <;>
        rw [hpr] at h0 <;> try dsimp only [] at h0
      · exact Except.noConfusion h0
      · rcases hrr : dayPagesSpec dayv target rest pr.2 with e | rr <;>
          rw [hrr] at h0
        · exact Except.noConfusion h0
        · dsimp only [] at h0
          cases h0
          obtain ⟨hlen1, hget1⟩ := dayPassAnnots_preserve dayv target pg.annots cs0 pr.1 pr.2
            (by rw [hpr])
          obtain ⟨hlen2, hget2⟩ := ih pr.2 rr hrr
          refine ⟨by simp [hlen2], ?_⟩
          intro pi pg2 hpi
          cases pi with
          | zero =>
            simp only [List.get?] at hpi
            cases hpi
            exact ⟨_, rfl, rfl, rfl, hlen1, hget1⟩
          | succ j =>
            simp only [List.get?] at hpi ⊢
            exact hget2 j pg2 hpi

/-- Structure of the first pass: pages map one-to-one, only annotations
change, and they change by the per-annotation fold. -/
theorem fillFieldsPass_preserve (mp : List (String × JVal)) (pdf : PdfDoc) :
    (fillFieldsPass mp pdf).pages.length = pdf.pages.length ∧
    ∀ pi pg, pdf.pages.get? pi = some pg →
      (fillFieldsPass mp pdf).pages.get? pi =
        some { pg with annots := applyMapping mp pg.annots } := by
  constructor
  · simp [fillFieldsPass]
  · intro pi pg hpi
    simp only [fillFieldsPass, List.get?_map]
    rw [hpi]
    rfl

/-- C2: with no photos supplied, `fill_pdf_form` changes only
annotations whose `/T` equals some mapping key (other than the pseudo
key `day_of_week`) and `/Btn` annotations whose title contains `'Day'`;
every other annotation of the template is unchanged, at its original
page and position, and the page count is preserved. -/
theorem C2_fill_frame (cs0 : Counters) (template : PdfDoc)
    (mapping : List (String × JVal)) (out : PdfDoc) (cs' : Counters)
    (hrun : fill_pdf_form cs0 template mapping [] = .ok (out, cs')) :
    out.pages.length = template.pages.length ∧
    ∀ pi ai a, (template.pages.get? pi).bind (fun pg => pg.annots.get? ai) = some a →
      (∀ kv ∈ mapping, kv.1 = "day_of_week" ∨ a.title ≠ some kv.1) →
      ¬isDayBtn a →
      (out.pages.get? pi).bind (fun pg => pg.annots.get? ai) = some a := by
  unfold fill_pdf_form at hrun
  simp only [bind, Except.bind, pure, Except.pure] at hrun
  split at hrun
  · -- the day value is hashable; the day pass ran
    split at hrun
    next e hdp => exact Except.noConfusion hrun
    next r hdp =>
      try dsimp only [] at hrun
      rcases r with ⟨outp, csF⟩
      rw [show List.isEmpty ([] : List Photo) = true from rfl] at hrun
      simp only [if_true] at hrun
      have hinj := Except.ok.inj hrun
      have hout : outp = out := congrArg Prod.fst hinj
      subst hout
      obtain ⟨hlen2, hget2⟩ := dayPass_preserve _ _ _ _ _ _ hdp
      obtain ⟨hlen1, hget1⟩ := fillFieldsPass_preserve mapping template
      constructor
      · rw [hlen2, hlen1]
      · intro pi ai a hpa hnk hnd
        rcases hpi : template.pages.get? pi with _ | pg
        · rw [hpi] at hpa
          exact Option.noConfusion hpa
        · rw [hpi] at hpa
          simp only [Option.bind] at hpa
          have h1 := hget1 pi pg hpi
          obtain ⟨pg', hpg', hx, hd, hal, haget⟩ := hget2 pi _ h1
          rw [hpg']
          simp only [Option.bind]
          have hmap : (applyMapping mapping pg.annots).get? ai = some a := by
            rw [applyMapping_eq_map, List.get?_map, hpa]
            simp only [Option.map]
            rw [foldl_apply_id mapping a hnk]
          exact haget ai a hmap hnd
  · exact Except.noConfusion hrun

/-- Witness template material for the `fill_pdf_form` claims. -/
def annotOther : Annot := ⟨some "OtherField", some "/Tx", none, none, [("/Rect", .other 1)]⟩

/-- A text field named `F1`. -/
def annotF1 : Annot := ⟨some "F1", some "/Tx", none, none, []⟩

/-- A one-page witness template. -/
def tmpl2 : PdfDoc := ⟨[⟨[annotOther, annotF1], [], []⟩]⟩

/-- A witness mapping touching only `F1`. -/
def map2 : List (String × JVal) := [("F1", .s "v"), ("day_of_week", .s "Monday")]

/-- The result of filling `tmpl2` with `map2`. -/
def out2 : PdfDoc :=
  ⟨[⟨[annotOther, ⟨some "F1", some "/Tx", some (.pstr "v"), none, []⟩], [], []⟩]⟩

/-- Witness for C2: `OtherField`, untouched by the mapping, is unchanged
at its position. -/
theorem C2_fill_frame_witness :
    out2.pages.length = tmpl2.pages.length ∧
    (out2.pages.get? 0).bind (fun pg => pg.annots.get? 0) = some annotOther := by
  have h := C2_fill_frame [] tmpl2 map2 out2 [] (by rfl)
  refine ⟨h.1, h.2 0 0 annotOther (by rfl) (by decide) ?_⟩
  rintro ⟨hft, -⟩
  simp [annotOther] at hft

/-! ## C6: unmatched mapping keys are skipped silently -/

/-- With a string day value the day pass never raises. -/
theorem dayPassAnnots_str_ok (d target : String) (l : List Annot) (cs : Counters) :
    ∃ r, dayPassAnnots (.s d) target l cs = .ok r := by
  induction l generalizing cs with
  | nil => exact ⟨([], cs), rfl⟩
  | cons a rest ih =>
    simp only [dayPassAnnots, bind, Except.bind, pure, Except.pure]
    rcases hT : a.title with _ | t <;> rcases hF : a.ftype with _ | ft <;> try dsimp only []
    all_goals try (obtain ⟨r, hr⟩ := ih cs; rw [hr]; exact ⟨_, rfl⟩)
    by_cases hbtn : (ft = "/Btn" && strContains t "Day") = true
    · rw [if_pos hbtn]
      try dsimp only []
      obtain ⟨r, hr⟩ := ih (counterBump cs t)
      rw [hr]
      exact ⟨_, rfl⟩
    · rw [if_neg hbtn]
      obtain ⟨r, hr⟩ := ih cs
      rw [hr]
      exact ⟨_, rfl⟩

/-- With a string day value the whole page loop never raises. -/
theorem dayPagesSpec_str_ok (d target : String) (pages : List Page) (cs : Counters) :
    ∃ r, dayPagesSpec (.s d) target pages cs = .ok r := by
  induction pages generalizing cs with
  | nil => exact ⟨([], cs), rfl⟩
  | cons pg rest ih =>
    simp only [dayPagesSpec, bind, Except.bind, pure, Except.pure]
    obtain ⟨pr, hpr⟩ := dayPassAnnots_str_ok d target pg.annots cs
    rw [hpr]
    dsimp only []
    obtain ⟨r, hr⟩ := ih pr.2
    rw [hr]
    exact ⟨_, rfl⟩

/-- With a string day value `dayPass` never raises. -/
theorem dayPass_str_ok (d target : String) (pdf : PdfDoc) (cs : Counters) :
    ∃ r, dayPass (.s d) target pdf cs = .ok r := by
  unfold dayPass
  rw [dayFold_eq_spec]
  simp only [bind, Except.bind, pure, Except.pure]
  obtain ⟨r, hr⟩ := dayPagesSpec_str_ok d target pdf.pages cs
  rw [hr]
  exact ⟨_, rfl⟩

/-- Dropping a non-day key from the mapping leaves the per-annotation
fold unchanged on annotations that never carry that title. -/
theorem foldl_filter_k (mp : List (String × JVal)) (k : String) (a : Annot)
    (hk : k ≠ "day_of_week") (ha : a.title ≠ some k) :
    mp.foldl (fun a kv => if kv.1 = "day_of_week" then a else applyField kv.1 kv.2 a) a =
      (mp.filter (fun kv => kv.1 ≠ k)).foldl
        (fun a kv => if kv.1 = "day_of_week" then a else applyField kv.1 kv.2 a) a := by
  induction mp generalizing a with
  | nil => rfl
  | cons kv rest ih =>
    by_cases hkv : kv.1 = k
    · have hfilter : (kv :: rest).filter (fun kv => kv.1 ≠ k) =
          rest.filter (fun kv => kv.1 ≠ k) := by
        simp [List.filter, hkv]
      rw [hfilter]
      simp only [List.foldl]
      rw [if_neg (by rw [hkv]; exact hk), applyField_ne _ _ _ (by rw [hkv]; exact ha)]
      exact ih a ha
    · have hfilter : (kv :: rest).filter (fun kv => kv.1 ≠ k) =
          kv :: rest.filter (fun kv => kv.1 ≠ k) := by
        simp [List.filter, hkv]
      rw [hfilter]
      simp only [List.foldl]
      by_cases hd : kv.1 = "day_of_week"
      · rw [if_pos hd]
        exact ih a ha
      · rw [if_neg hd]
        refine ih _ ?_
        rw [(applyField_title kv.1 kv.2 a).1]
        exact ha

/-- Dropping a non-day key does not change the day-of-week entry. -/
theorem find_day_filter (mp : List (String × JVal)) (k : String) (hk : k ≠ "day_of_week") :
    (mp.filter (fun kv => kv.1 ≠ k)).find? (fun kv => kv.1 = "day_of_week") =
      mp.find? (fun kv => kv.1 = "day_of_week") := by
  induction mp with
  | nil => rfl
  | cons kv rest ih =>
    by_cases hkv : kv.1 = k
    · have hfilter : (kv :: rest).filter (fun kv => kv.1 ≠ k) =
          rest.filter (fun kv => kv.1 ≠ k) := by simp [List.filter, hkv]
      rw [hfilter, ih]
      rw [List.find?_cons_of_neg]
      simp [hkv, hk]
    · have hfilter : (kv :: rest).filter (fun kv => kv.1 ≠ k) =
          kv :: rest.filter (fun kv => kv.1 ≠ k) := by simp [List.filter, hkv]
      rw [hfilter]
      by_cases hd : kv.1 = "day_of_week"
      · rw [List.find?_cons_of_pos _ (by simp [hd]), List.find?_cons_of_pos _ (by simp [hd])]
      · rw [List.find?_cons_of_neg _ (by simp [hd]), List.find?_cons_of_neg _ (by simp [hd])]
        exact ih

/-- C6: `fill_pdf_form` validates nothing: a mapping key matching no
annotation title in the template is silently skipped (the run result
equals the run without that key), and the call still returns PDF bytes
without raising. -/
theorem C6_unmatched_key_skipped (cs0 : Counters) (template : PdfDoc)
    (mapping : List (String × JVal)) (k : String)
    (hk : k ≠ "day_of_week")
    (hno : ∀ pg ∈ template.pages, ∀ a ∈ pg.annots, a.title ≠ some k)
    (hday : ∃ d, (((mapping.find? (fun kv => kv.1 = "day_of_week")).map
      (fun kv => kv.2)).getD (.s "Monday")) = JVal.s d) :
    (∃ out, fill_pdf_form cs0 template mapping [] = .ok out) ∧
    fill_pdf_form cs0 template mapping [] =
      fill_pdf_form cs0 template (mapping.filter (fun kv => kv.1 ≠ k)) [] := by
  have hfp : fillFieldsPass mapping template =
      fillFieldsPass (mapping.filter (fun kv => kv.1 ≠ k)) template := by
    unfold fillFieldsPass
    congr 1
    apply List.map_congr_left
    intro pg hpg
    have : applyMapping mapping pg.annots =
        applyMapping (mapping.filter (fun kv => kv.1 ≠ k)) pg.annots := by
      rw [applyMapping_eq_map, applyMapping_eq_map]
      apply List.map_congr_left
      intro a ha
      exact foldl_filter_k mapping k a hk (hno pg hpg a ha)
    rw [this]
  constructor
  · obtain ⟨d, hd⟩ := hday
    unfold fill_pdf_form
    simp only [bind, Except.bind, pure, Except.pure]
    rw [hd]
    rw [if_pos (by rfl : (JVal.s d).hashable = true)]
    try dsimp only []
    obtain ⟨r, hr⟩ := dayPass_str_ok d (appearanceMap d) (fillFieldsPass mapping template) []
    rw [hr]
    exact ⟨_, rfl⟩
  · unfold fill_pdf_form
    rw [find_day_filter mapping k hk, ← hfp]

/-- A witness mapping with a key matching no annotation of `tmpl2`. -/
def map2g : List (String × JVal) :=
  [("F1", .s "v"), ("Ghost", .s "x"), ("day_of_week", .s "Monday")]

/-- Witness for C6: the unmatched key `Ghost` is skipped and the run
still succeeds. -/
theorem C6_unmatched_key_skipped_witness :
    (∃ out, fill_pdf_form [] tmpl2 map2g [] = .ok out) ∧
    fill_pdf_form [] tmpl2 map2g [] =
      fill_pdf_form [] tmpl2 (map2g.filter (fun kv => kv.1 ≠ "Ghost")) [] :=
  C6_unmatched_key_skipped [] tmpl2 map2g "Ghost" (by decide) (by decide) ⟨"Monday", by rfl⟩

/-! ## C10: photo embedding limits and per-photo error containment -/

/-- All six slots of `image_coords` have a 189×142 box. -/
theorem imageCoords_shape (i : Nat) (hi : i < 6) :
    ∃ x y, imageCoords.get? i = some (x, y, 189, 142) := by
  interval_cases i <;> exact ⟨_, _, rfl⟩

/-- The embedding fold appends exactly one XObject per decodable photo,
named by its position; failed photos contribute nothing. -/
theorem embedFold_xobjects (l : List (Nat × Photo)) (pg : Page)
    (hidx : ∀ x ∈ l, x.1 < 6) :
    (l.foldl (fun acc ikv => embedStep acc ikv.1 ikv.2) pg).xobjects =
      pg.xobjects ++ l.filterMap (fun ikv =>
        match ikv.2 with
        | .img w h => some (s!"Photo{ikv.1 + 1}",
            (thumbDims w h 189 142).1, (thumbDims w h 189 142).2)
        | .bad => none) := by
  induction l generalizing pg with
  | nil => simp
  | cons x rest ih =>
    rcases x with ⟨i, photo⟩
    rcases photo with ⟨w, h⟩ | _
    · simp only [List.foldl, List.filterMap]
      obtain ⟨cx, cy, hc⟩ := imageCoords_shape i (hidx (i, .img w h) (List.mem_cons_self _ _))
      rw [show embedStep pg i (.img w h) = { pg with
          xobjects := pg.xobjects ++ [(s!"Photo{i + 1}", (thumbDims w h 189 142).1,
            (thumbDims w h 189 142).2)],
          drawOps := pg.drawOps ++ [⟨s!"Photo{i + 1}", cx, cy, (189 : Rat), (142 : Rat)⟩] } by
        unfold embedStep
        rw [hc]
        rfl]
      rw [ih _ (fun y hy => hidx y (List.mem_cons_of_mem _ hy))]
      simp
    · simp only [List.foldl, List.filterMap]
      rw [show embedStep pg i .bad = pg from rfl]
      exact ih pg (fun y hy => hidx y (List.mem_cons_of_mem _ hy))

/-- On a template with at least four pages, the photo embedder never
raises, whatever the photos are. -/
theorem embed_images_ok (pdf : PdfDoc) (photos : List Photo)
    (h4 : 4 ≤ pdf.pages.length) :
    ∃ out, _embed_images_in_pdf pdf photos = .ok out := by
  unfold _embed_images_in_pdf
  rcases hemp : photos.isEmpty with _ | _
  · simp only [hemp, if_false, Bool.false_eq_true]
    rw [List.get?_eq_get (by omega : 3 < pdf.pages.length)]
    exact ⟨_, rfl⟩
  · simp only [hemp, if_true]
    exact ⟨_, rfl⟩

/-- C10: `_embed_images_in_pdf` only looks at the first six photos; a
photo whose decoding fails is skipped on its own, every decodable photo
among the first six gets its `Photo{i+1}` XObject on page 4, and
`fill_pdf_form` still returns a document. -/
theorem C10_photo_limit_and_skip (pdf : PdfDoc) (photos : List Photo)
    (h4 : 4 ≤ pdf.pages.length) :
    _embed_images_in_pdf pdf photos = _embed_images_in_pdf pdf (photos.take 6) ∧
    (∃ out, _embed_images_in_pdf pdf photos = .ok out ∧
      ∀ pg3, pdf.pages.get? 3 = some pg3 →
        ∃ pg3', out.pages.get? 3 = some pg3' ∧
          pg3'.xobjects = pg3.xobjects ++ (photos.take 6).enum.filterMap (fun ikv =>
            match ikv.2 with
            | .img w h => some (s!"Photo{ikv.1 + 1}",
                (thumbDims w h 189 142).1, (thumbDims w h 189 142).2)
            | .bad => none)) ∧
    (∀ cs0 mapping,
      (∃ d, ((mapping.find? (fun kv => kv.1 = "day_of_week")).map
        (fun kv => kv.2)).getD (.s "Monday") = JVal.s d) →
      ∃ r, fill_pdf_form cs0 pdf mapping photos = .ok r) := by
  have hlt : 3 < pdf.pages.length := by omega
  refine ⟨?_, ?_, ?_⟩
  · -- at most the first six photos matter
    unfold _embed_images_in_pdf
    rcases photos with _ | ⟨p, rest⟩
    · rfl
    · simp only [List.take, List.isEmpty, if_false]
      rw [List.take_take]
      rfl
  · -- the embedder succeeds and page 4 gains exactly the decodable photos
    unfold _embed_images_in_pdf
    rcases hemp : photos.isEmpty with _ | _
    · simp only [hemp, if_false, Bool.false_eq_true]
      rw [List.get?_eq_get hlt]
      refine ⟨_, rfl, ?_⟩
      intro pg3 hpg3
      have hpg3' := Option.some.inj hpg3
      subst hpg3'
      refine ⟨_, List.get?_set_eq_of_lt _ (by simpa using hlt), ?_⟩
      exact embedFold_xobjects _ _ (by
        intro x hx
        have := List.mem_enumFrom hx
        have hle := List.length_take_le 6 photos
        omega)
    · have hphotos : photos = [] := List.isEmpty_iff.mp hemp
      subst hphotos
      simp only [if_true]
      refine ⟨pdf, rfl, ?_⟩
      intro pg3 hpg3
      exact ⟨pg3, hpg3, by simp⟩
  · -- the whole form fill still returns a document
    intro cs0 mapping hd
    obtain ⟨d, hd⟩ := hd
    unfold fill_pdf_form
    simp only [bind, Except.bind, pure, Except.pure]
    rw [hd]
    simp only [JVal.hashable, if_true]
    obtain ⟨⟨outp, cs'⟩, hdp⟩ := dayPass_str_ok d (appearanceMap d)
      (fillFieldsPass mapping pdf) []
    rw [hdp]
    rcases hemp : photos.isEmpty with _ | _
    · simp only [hemp, if_false, Bool.false_eq_true]
      have hlen : 4 ≤ outp.pages.length := by
        have h1 := (dayPass_preserve _ _ _ _ _ _ hdp).1
        have h2 := (fillFieldsPass_preserve mapping pdf).1
        omega
      obtain ⟨o, ho⟩ := embed_images_ok outp photos hlen
      rw [ho]
      exact ⟨_, rfl⟩
    · simp only [hemp, if_true]
      exact ⟨_, rfl⟩

/-- A four-page template whose photo page already holds one XObject. -/
def tmpl10 : PdfDoc :=
  ⟨[⟨[annotF1], [], []⟩, ⟨[], [], []⟩, ⟨[], [], []⟩,
    ⟨[], [("Existing", 10, 10)], []⟩]⟩

/-- Seven uploads: two fail to decode, and a seventh is beyond the grid. -/
def photos10 : List Photo :=
  [.img 100 100, .bad, .img 2000 1000, .img 50 50, .bad, .img 189 142,
   .img 999 999]

theorem C10_photo_limit_and_skip_witness :
    4 ≤ tmpl10.pages.length ∧
    (_embed_images_in_pdf tmpl10 photos10 =
        _embed_images_in_pdf tmpl10 (photos10.take 6) ∧
      (∃ out, _embed_images_in_pdf tmpl10 photos10 = .ok out ∧
        ∀ pg3, tmpl10.pages.get? 3 = some pg3 →
          ∃ pg3', out.pages.get? 3 = some pg3' ∧
            pg3'.xobjects = pg3.xobjects ++
              (photos10.take 6).enum.filterMap (fun ikv =>
                match ikv.2 with
                | .img w h => some (s!"Photo{ikv.1 + 1}",
                    (thumbDims w h 189 142).1, (thumbDims w h 189 142).2)
                | .bad => none)) ∧
      (∀ cs0 mapping,
        (∃ d, ((mapping.find? (fun kv => kv.1 = "day_of_week")).map
          (fun kv => kv.2)).getD (.s "Monday") = JVal.s d) →
        ∃ r, fill_pdf_form cs0 tmpl10 mapping photos10 = .ok r)) :=
  ⟨by decide, C10_photo_limit_and_skip tmpl10 photos10 (by decide)⟩

/-! ## C3: shape tolerance of `create_field_mapping`

The claim says *any* shapes of the six entries are tolerated.  That is
refuted by a non-iterable `Equipment` value (line 22 `for item in
data['Equipment']` raises `TypeError`).  The predicates below carve out
the shapes that actually are tolerated: they exclude exactly the raising
paths of the embedding (truthy non-parseable temperature strings, truthy
non-string wind/conditions, non-numeric truthy humidity, unhashable
contractors, non-string truthy trades, non-numeric personnel counts,
non-string work-item descriptions, non-dict first inspectors, non-string
narrative texts without a timestamp, non-iterable equipment values,
scalar daily reports, …), and the amended theorem shows they suffice. -/

/-- The `Temperature` value neither fails `float()` (line 216) nor the
`temp_float >= 83` comparison (line 219). -/
def goodTempVal (t : JVal) : Bool :=
  if t.truthy then
    match t with
    | .s v => (parsePyFloat v).isSome
    | _ => t.asNum.isSome
  else true

/-- A value that is a string whenever it is truthy (so `.lower()` /
`.strip()` / `'x' in v` cannot raise on it). -/
def goodStrIfTruthy : JVal → Bool
  | .s _ => true
  | v => !v.truthy

/-- The `Humidity` value survives lines 125-145 and `humidity >= 75`. -/
def goodHumVal : JVal → Bool
  | .s _ => true
  | v => !v.truthy || v.asNum.isSome

/-- The `Weather` entry raises nowhere in lines 103-152 / 212-262. -/
def goodWeatherEntry (data : List (String × JVal)) : Bool :=
  match dictLookup data "Weather" with
  | some (.dict w) =>
    goodTempVal (dictGet w "Temperature" (.i 0)) &&
    goodStrIfTruthy (dictGet w "Wind" (.s "Calm")) &&
    goodHumVal (dictGet w "Humidity" (.i 50)) &&
    goodStrIfTruthy (dictGet w "Conditions" (.s "Clear"))
  | _ => true

/-- One personnel entry raises neither in the personnel loop
(lines 272-310) nor in `extract_superintendent_name` (lines 90-101). -/
def goodPerson : JVal → Bool
  | .dict person =>
    goodStrIfTruthy (dictGet person "Trade" (.s "")) &&
    (let contractor := dictGet person "Contractor" (.s "")
     !contractor.truthy ||
       (contractor.hashable && (dictGet person "Count" (.i 1)).asNum.isSome))
  | _ => true

/-- The `Personnel` entry raises nowhere. -/
def goodPersonnelEntry (data : List (String × JVal)) : Bool :=
  match dictLookup data "Personnel" with
  | some (.list ps) => ps.all goodPerson
  | _ => true

/-- One work item raises nowhere in lines 326-350. -/
def goodWorkItem : JVal → Bool
  | .dict d =>
    match dictGet d "Description" (.s "") with
    | .s _ => true
    | _ => false
  | _ => true

/-- The `WorkItems` entry raises nowhere. -/
def goodWorkItemsEntry (data : List (String × JVal)) : Bool :=
  match dictLookup data "WorkItems" with
  | some (.list items) => items.all goodWorkItem
  | _ => true

/-- The `Inspector` entry raises nowhere in lines 80-88. -/
def goodInspectorEntry (data : List (String × JVal)) : Bool :=
  match dictLookup data "Inspector" with
  | some (.list (x :: _)) =>
    match x with
    | .dict _ => true
    | _ => false
  | _ => true

/-- One narrative item contributes only strings to `remarks_list`,
so `'\n'.join(...)` (line 78) cannot raise. -/
def goodNarrItem : JVal → Bool
  | .dict d =>
    !(dictGet d "Text" (.s "")).truthy ||
      (dictGet d "Timestamp" (.s "")).truthy ||
      (match dictGet d "Text" (.s "") with
       | .s _ => true
       | _ => false)
  | _ => true

/-- A `Narrative` value raises nowhere in lines 40-78. -/
def goodNarrVal : JVal → Bool
  | .list items => items.all goodNarrItem
  | _ => true

/-- One equipment item contributes only strings to `equipment_list`. -/
def goodEquipItem : JVal → Bool
  | .dict d => goodStrIfTruthy (dictGet d "Name" (.s ""))
  | _ => true

/-- An `Equipment` value is iterable and yields only string names
(lines 22-26 / 32-36 and the join of line 38). -/
def goodEquipVal : JVal → Bool
  | .list items => items.all goodEquipItem
  | .s _ => true
  | .dict _ => true
  | _ => false

/-- The `DailyReport` entry raises nowhere in lines 29-36 / 58-74
(`'Equipment' in daily_report` raises on scalars, and subscripting a
string / list daily report raises when the `in` test succeeds). -/
def goodDailyEntry (data : List (String × JVal)) : Bool :=
  match dictLookup data "DailyReport" with
  | some (.dict xs) =>
    (match dictLookup xs "Narrative" with
     | some nv => goodNarrVal nv
     | none => true) &&
    (match dictLookup xs "Equipment" with
     | some ev => goodEquipVal ev
     | none => true)
  | some (.s v) => !(strContains v "Narrative") && !(strContains v "Equipment")
  | some (.list xs) =>
    !(xs.any (fun x => pyEq (.s "Narrative") x)) &&
    !(xs.any (fun x => pyEq (.s "Equipment") x))
  | some _ => false
  | none => true

/-- The top-level `Narrative` entry raises nowhere. -/
def goodNarrTopEntry (data : List (String × JVal)) : Bool :=
  match dictLookup data "Narrative" with
  | some nv => goodNarrVal nv
  | none => true

/-- The top-level `Equipment` entry raises nowhere. -/
def goodEquipTopEntry (data : List (String × JVal)) : Bool :=
  match dictLookup data "Equipment" with
  | some ev => goodEquipVal ev
  | none => true

/-- The amended shape condition: the six entries named by the claim may
still vary in shape (absent, wrong type at many places, partial), but
within the limits that the code actually tolerates. -/
def wellFormedData (data : List (String × JVal)) : Bool :=
  goodWeatherEntry data && goodPersonnelEntry data && goodWorkItemsEntry data &&
  goodInspectorEntry data && goodNarrTopEntry data && goodEquipTopEntry data &&
  goodDailyEntry data

/-- `float()` succeeds on every numeric value. -/
theorem pyFloat_of_asNum (v : JVal) (q : Rat) (h : v.asNum = some q) :
    pyFloat v = .ok q := by
  rcases v with s | n | r | bb | _ | xs | xs <;>
    simp [JVal.asNum] at h <;> simp [pyFloat, h]

/-- Adding numeric values stays numeric and never raises. -/
theorem pyAdd_ok (a bv : JVal) (ha : a.asNum.isSome) (hb : bv.asNum.isSome) :
    ∃ c, pyAdd a bv = .ok c ∧ c.asNum.isSome := by
  rcases a with s | n | r | x | _ | xs | xs <;>
    rcases bv with s' | n' | r' | y | _ | ys | ys <;>
      simp [JVal.asNum] at ha hb <;>
      exact ⟨_, rfl, rfl⟩

/-- Key membership of a dict via `==` on its keys agrees with lookup. -/
theorem dict_any_key (xs : List (String × JVal)) (k : String) :
    xs.any (fun kv => pyEq (.s k) (.s kv.1)) = (dictLookup xs k).isSome := by
  induction xs with
  | nil => rfl
  | cons kv rest ih =>
    by_cases hk : kv.1 = k
    · simp [List.any, dictLookup, hk, pyEq]
    · simp only [List.any, pyEq] at ih ⊢
      simp [dictLookup, hk, Ne.symm hk, ih]

/-- `sep.join` succeeds on a list of strings. -/
theorem pyJoin_ok (sep : String) (xs : List JVal)
    (h : ∀ x ∈ xs, ∃ s, x = JVal.s s) :
    ∃ r, pyJoin sep xs = .ok r := by
  induction xs with
  | nil => exact ⟨"", rfl⟩
  | cons x rest ih =>
    obtain ⟨s, hs⟩ := h x (List.mem_cons_self _ _)
    subst hs
    rcases rest with _ | ⟨y, rest'⟩
    · exact ⟨s, rfl⟩
    · obtain ⟨r, hr⟩ := ih (fun z hz => h z (List.mem_cons_of_mem _ hz))
      refine ⟨s ++ sep ++ r, ?_⟩
      show pyJoin sep (JVal.s s :: y :: rest') = _
      unfold pyJoin
      simp only [bind, Except.bind]
      rw [hr]

/-- A good temperature value is extracted without raising, into a
non-string numeric value. -/
theorem tempOf_total (w0 : List (String × JVal))
    (h : goodTempVal (dictGet w0 "Temperature" (.i 0)) = true) :
    ∃ tv, tempOf w0 = .ok tv ∧ tv.asNum.isSome = true ∧ ∀ s0, tv ≠ .s s0 := by
  unfold goodTempVal at h
  unfold tempOf
  generalize dictGet w0 "Temperature" (JVal.i 0) = temp at h ⊢
  by_cases ht : temp.truthy
  · rw [if_pos ht] at h ⊢
    rcases temp with s | n | q | bb | _ | xs | xs
    · dsimp only [] at h ⊢
      obtain ⟨q, hq⟩ := Option.isSome_iff_exists.mp h
      rw [hq]
      exact ⟨.f q, rfl, rfl, by simp⟩
    · exact ⟨.i n, rfl, h, by simp⟩
    · exact ⟨.f q, rfl, h, by simp⟩
    · exact ⟨.b bb, rfl, h, by simp⟩
    · simp [JVal.truthy] at ht
    · simp [JVal.asNum] at h
    · simp [JVal.asNum] at h
  · rw [if_neg ht]
    exact ⟨.i 0, rfl, rfl, by simp⟩

/-- The default arm of the humidity extraction never raises on a value
that is numeric whenever truthy. -/
theorem humOf_arm (v : JVal) (h : (!v.truthy || v.asNum.isSome) = true) :
    ∃ hv, (if v.truthy then
             match pyFloat v with
             | Except.ok q => Except.ok (JVal.f q)
             | Except.error e => Except.error e
           else Except.ok (JVal.i 50)) = Except.ok hv ∧ hv.asNum.isSome = true := by
  by_cases ht : v.truthy
  · rw [if_pos ht]
    rw [ht] at h
    simp only [Bool.not_true, Bool.false_or] at h
    obtain ⟨q', hq'⟩ := Option.isSome_iff_exists.mp h
    rw [pyFloat_of_asNum _ _ hq']
    exact ⟨_, rfl, rfl⟩
  · rw [if_neg ht]
    exact ⟨_, rfl, rfl⟩

/-- A good humidity value is extracted without raising, into a numeric
value. -/
theorem humOf_total (w0 : List (String × JVal))
    (h : goodHumVal (dictGet w0 "Humidity" (.i 50)) = true) :
    ∃ hv, humOf w0 = .ok hv ∧ hv.asNum.isSome = true := by
  unfold goodHumVal at h
  unfold humOf
  generalize dictGet w0 "Humidity" (JVal.i 50) = hum at h ⊢
  rcases hum with s | n | q | bb | _ | xs | xs
  · exact ⟨_, rfl, rfl⟩
  · exact humOf_arm (JVal.i n) h
  · exact humOf_arm (JVal.f q) h
  · exact humOf_arm (JVal.b bb) h
  · exact humOf_arm JVal.null h
  · exact humOf_arm (JVal.list xs) h
  · exact humOf_arm (JVal.dict xs) h

/-- `v if v else default` is a string when `v` is good and the default
is a string. -/
theorem strIfTruthy_arm (v dflt : JVal) (hd : ∃ s0, dflt = JVal.s s0)
    (h : goodStrIfTruthy v = true) :
    ∃ s0, (if v.truthy then v else dflt) = JVal.s s0 := by
  obtain ⟨s1, hs1⟩ := hd
  rcases v with s | n | q | bb | _ | xs | xs
  · by_cases ht : (JVal.s s).truthy
    · exact ⟨s, if_pos ht⟩
    · exact ⟨s1, by rw [if_neg ht, hs1]⟩
  all_goals {
    unfold goodStrIfTruthy at h
    simp only [Bool.not_eq_true'] at h
    exact ⟨s1, by rw [if_neg (by simp [h]), hs1]⟩ }

/-- A good wind value yields a string wind field. -/
theorem windOf_total (w0 : List (String × JVal))
    (h : goodStrIfTruthy (dictGet w0 "Wind" (.s "Calm")) = true) :
    ∃ s0, windOf w0 = .s s0 :=
  strIfTruthy_arm _ _ ⟨"Calm", rfl⟩ h

/-- A good conditions value yields a string conditions field. -/
theorem condOf_total (w0 : List (String × JVal))
    (h : goodStrIfTruthy (dictGet w0 "Conditions" (.s "Clear")) = true) :
    ∃ s0, condOf w0 = .s s0 :=
  strIfTruthy_arm _ _ ⟨"Clear", rfl⟩ h

/-- The weather cells never raise on numeric temperature, string wind,
numeric humidity and string conditions. -/
theorem weatherRest_total (w : WeatherData) (tf : JVal)
    (ht : tf.asNum.isSome = true) (hw : ∃ s0, w.wind = .s s0)
    (hh : w.humidity.asNum.isSome = true) (hc : ∃ s0, w.conditions = .s s0) :
    ∃ m, weatherRest w tf = .ok m := by
  obtain ⟨tq, htq⟩ := Option.isSome_iff_exists.mp ht
  obtain ⟨ws, hws⟩ := hw
  obtain ⟨hq, hhq⟩ := Option.isSome_iff_exists.mp hh
  obtain ⟨cs, hcs⟩ := hc
  unfold weatherRest
  rw [htq, hws, hhq, hcs]
  exact ⟨_, rfl⟩

/-- A good `Weather` entry makes both the extraction and the weather
cells of the mapping succeed. -/
theorem weather_stage_total (data : List (String × JVal))
    (h : goodWeatherEntry data = true) :
    ∃ w m, extract_weather_data data = .ok w ∧ weatherPart w = .ok m := by
  unfold goodWeatherEntry at h
  unfold extract_weather_data
  rcases hW : dictLookup data "Weather" with _ | v
  · exact ⟨weatherDefaults, _, rfl, rfl⟩
  · rw [hW] at h
    rcases v with s | n | q | bb | _ | xs | w0
    case dict =>
      simp only [Bool.and_eq_true] at h
      obtain ⟨⟨⟨h1, h2⟩, h3⟩, h4⟩ := h
      obtain ⟨tv, htv, htn, hts⟩ := tempOf_total w0 h1
      obtain ⟨hv, hhv, hhn⟩ := humOf_total w0 h3
      obtain ⟨ws, hws⟩ := windOf_total w0 h2
      obtain ⟨cs, hcs⟩ := condOf_total w0 h4
      have hwp : ∃ m, weatherPart ⟨tv, windOf w0, hv, condOf w0⟩ = .ok m := by
        unfold weatherPart
        simp only [bind, Except.bind]
        rcases tv with s | n | q | bb | _ | xs | xs
        · exact absurd rfl (hts s)
        all_goals
          exact weatherRest_total _ _ htn ⟨ws, hws⟩ hhn ⟨cs, hcs⟩
      obtain ⟨m, hm⟩ := hwp
      refine ⟨⟨tv, windOf w0, hv, condOf w0⟩, m, ?_, hm⟩
      simp only [bind, Except.bind]
      rw [htv, hhv]
      rfl
    all_goals exact ⟨weatherDefaults, _, rfl, rfl⟩

/-- A good value that is truthy must be a string. -/
theorem goodStr_truthy_eq_s (v : JVal) (h : goodStrIfTruthy v = true)
    (ht : v.truthy = true) : ∃ s0, v = JVal.s s0 := by
  rcases v with s | n | q | bb | _ | xs | xs
  · exact ⟨s, rfl⟩
  all_goals {
    simp only [goodStrIfTruthy] at h
    rw [ht] at h
    simp at h }

/-- The trade-totals update keeps every total numeric. -/
theorem ttUpdate_inv (tt : List (String × JVal)) (trade : String) (nc : JVal)
    (htt : ∀ kv ∈ tt, (kv.2 : JVal).asNum.isSome = true)
    (hnc : nc.asNum.isSome = true) :
    ∀ kv ∈ (if tt.any (fun kv => kv.1 = trade)
            then tt.map (fun kv => if kv.1 = trade then (trade, nc) else kv)
            else tt ++ [(trade, nc)]), (kv.2 : JVal).asNum.isSome = true := by
  intro kv hkv
  by_cases ha : tt.any (fun kv => kv.1 = trade)
  · rw [if_pos ha] at hkv
    obtain ⟨kv0, hkv0, hf⟩ := List.mem_map.mp hkv
    by_cases he : kv0.1 = trade
    · rw [if_pos he] at hf
      rw [← hf]
      exact hnc
    · rw [if_neg he] at hf
      rw [← hf]
      exact htt kv0 hkv0
  · rw [if_neg ha] at hkv
    rcases List.mem_append.mp hkv with hm | hm
    · exact htt _ hm
    · rw [List.mem_singleton.mp hm]
      exact hnc

/-- One good personnel entry never raises in the personnel loop, and
keeps all trade totals numeric. -/
theorem personnelStep_total (st : PersonnelState) (p : JVal)
    (hp : goodPerson p = true)
    (htt : ∀ kv ∈ st.tt, (kv.2 : JVal).asNum.isSome = true) :
    ∃ st', personnelStep st p = .ok st' ∧
      ∀ kv ∈ st'.tt, (kv.2 : JVal).asNum.isSome = true := by
  rcases p with s | n | q | bb | _ | xs | person
  case dict =>
    simp only [goodPerson, Bool.and_eq_true] at hp
    obtain ⟨htr, hcon⟩ := hp
    unfold personnelStep
    dsimp only []
    by_cases hc : (dictGet person "Contractor" (JVal.s "")).truthy
    · rw [if_neg (not_not_intro hc)]
      rw [hc] at hcon
      simp only [Bool.not_true, Bool.false_or, Bool.and_eq_true] at hcon
      obtain ⟨hh, hcnt⟩ := hcon
      rw [if_neg (not_not_intro hh)]
      by_cases ht0 : (dictGet person "Trade" (JVal.s "")).truthy
      · obtain ⟨v, hv⟩ := goodStr_truthy_eq_s _ htr ht0
        rw [hv] at ht0 ⊢
        rw [if_neg (not_not_intro ht0)]
        dsimp only []
        simp only [bind, Except.bind, pure, Except.pure]
        have hold : (match st.tt.find?
              (fun (kv : String × JVal) =>
                kv.1 = if pyStrip v = "" then "Laborer" else v) with
            | some kv => kv.2
            | none => JVal.i 0).asNum.isSome = true := by
          rcases hfind : st.tt.find?
              (fun (kv : String × JVal) =>
                kv.1 = if pyStrip v = "" then "Laborer" else v) with _ | kv
          · rfl
          · exact htt kv (List.mem_of_find?_eq_some hfind)
        obtain ⟨nc, hadd, hnum⟩ := pyAdd_ok _ _ hold hcnt
        rw [hadd]
        exact ⟨_, rfl, ttUpdate_inv st.tt _ nc htt hnum⟩
      · rw [if_pos (by simpa using ht0)]
        simp only [bind, Except.bind, pure, Except.pure]
        have hold : (match st.tt.find?
              (fun (kv : String × JVal) => kv.1 = "Laborer") with
            | some kv => kv.2
            | none => JVal.i 0).asNum.isSome = true := by
          rcases hfind : st.tt.find?
              (fun (kv : String × JVal) => kv.1 = "Laborer") with _ | kv
          · rfl
          · exact htt kv (List.mem_of_find?_eq_some hfind)
        obtain ⟨nc, hadd, hnum⟩ := pyAdd_ok _ _ hold hcnt
        rw [hadd]
        exact ⟨_, rfl, ttUpdate_inv st.tt _ nc htt hnum⟩
    · rw [if_pos (by simpa using hc)]
      exact ⟨st, rfl, htt⟩
  all_goals exact ⟨st, rfl, htt⟩

/-- The whole personnel fold never raises on good entries. -/
theorem personnelFold_total (ps : List JVal) :
    ∀ st : PersonnelState, ps.all goodPerson = true →
    (∀ kv ∈ st.tt, (kv.2 : JVal).asNum.isSome = true) →
    ∃ st', ps.foldlM personnelStep st = .ok st' := by
  induction ps with
  | nil =>
    intro st _ _
    exact ⟨st, rfl⟩
  | cons p rest ih =>
    intro st hps htt
    rw [List.all_cons, Bool.and_eq_true] at hps
    obtain ⟨st1, hstep, hinv⟩ := personnelStep_total st p hps.1 htt
    obtain ⟨st', hrest⟩ := ih st1 hps.2 hinv
    refine ⟨st', ?_⟩
    rw [List.foldlM_cons, hstep]
    exact hrest

/-- The Personnel stage of the mapping never raises on good entries. -/
theorem personnelPart_total (data : List (String × JVal)) (m : FieldMap)
    (h : goodPersonnelEntry data = true) :
    ∃ m', personnelPart data m = .ok m' := by
  unfold goodPersonnelEntry at h
  unfold personnelPart
  rcases hP : dictLookup data "Personnel" with _ | v
  · exact ⟨m, rfl⟩
  · rw [hP] at h
    rcases v with s | n | q | bb | _ | ps | xs
    case list =>
      obtain ⟨st', hst'⟩ := personnelFold_total ps ⟨[], [], none⟩ h (by simp)
      simp only [bind, Except.bind]
      rw [hst']
      exact ⟨_, rfl⟩
    all_goals exact ⟨m, rfl⟩

/-- The superintendent scan never raises on good entries. -/
theorem superScan_total (ps : List JVal) (hps : ps.all goodPerson = true) :
    ∃ v, superintendentScan ps = .ok v := by
  induction ps with
  | nil => exact ⟨.s "", rfl⟩
  | cons p rest ih =>
    rw [List.all_cons, Bool.and_eq_true] at hps
    obtain ⟨ihv, ihh⟩ := ih hps.2
    rcases p with s | n | q | bb | _ | xs | person
    case dict =>
      have htr : goodStrIfTruthy (dictGet person "Trade" (JVal.s "")) = true := by
        have := hps.1
        simp only [goodPerson, Bool.and_eq_true] at this
        exact this.1
      unfold superintendentScan
      dsimp only []
      by_cases ht0 : (dictGet person "Trade" (JVal.s "")).truthy
      · obtain ⟨v, hv⟩ := goodStr_truthy_eq_s _ htr ht0
        rw [hv] at ht0 ⊢
        rw [if_pos ht0]
        simp only [bind, Except.bind, pure, Except.pure, pyIn]
        by_cases hcnd : (strContains v "Superintendent" &&
            (dictGet person "Name" (JVal.s "")).truthy) = true
        · rw [if_pos hcnd]
          exact ⟨_, rfl⟩
        · rw [if_neg hcnd]
          exact ⟨ihv, ihh⟩
      · rw [if_neg (by simpa using ht0)]
        exact ⟨ihv, ihh⟩
    all_goals exact ⟨ihv, ihh⟩

/-- `extract_superintendent_name` never raises on good entries. -/
theorem extract_superintendent_total (data : List (String × JVal))
    (h : goodPersonnelEntry data = true) :
    ∃ v, extract_superintendent_name data = .ok v := by
  unfold goodPersonnelEntry at h
  unfold extract_superintendent_name
  rcases hP : dictLookup data "Personnel" with _ | v
  · exact ⟨.s "", rfl⟩
  · rw [hP] at h
    rcases v with s | n | q | bb | _ | ps | xs
    case list => exact superScan_total ps h
    all_goals exact ⟨.s "", rfl⟩

/-- A monadic fold succeeds when every step succeeds. -/
theorem foldlM_total {α β : Type} (f : β → α → Except PyErr β) (l : List α)
    (P : α → Prop) (hl : ∀ x ∈ l, P x)
    (hf : ∀ b0 x, P x → ∃ b1, f b0 x = .ok b1) :
    ∀ b0, ∃ b1, l.foldlM f b0 = .ok b1 := by
  induction l with
  | nil =>
    intro b0
    exact ⟨b0, rfl⟩
  | cons x rest ih =>
    intro b0
    obtain ⟨b1, hb1⟩ := hf b0 x (hl x (List.mem_cons_self _ _))
    obtain ⟨b2, hb2⟩ := ih (fun y hy => hl y (List.mem_cons_of_mem _ hy)) b1
    refine ⟨b2, ?_⟩
    rw [List.foldlM_cons, hb1]
    exact hb2

/-- The work-items fold never raises on good items. -/
theorem workItemsFold_total (m : FieldMap) (items : List JVal)
    (h : items.all goodWorkItem = true) :
    ∃ m', workItemsFold m items = .ok m' := by
  unfold workItemsFold
  apply foldlM_total _ _ (fun ikv : Nat × JVal => goodWorkItem ikv.2 = true)
  · intro x hx
    have hm := List.mem_enumFrom hx
    rw [List.all_eq_true] at h
    rw [hm.2.2]
    exact h _ (List.getElem_mem _)
  · intro acc ikv hgood
    rcases ikv with ⟨i, item⟩
    rcases item with s | n | q | bb | _ | xs | d
    case dict =>
      dsimp only [] at hgood ⊢
      by_cases hi : i < 20
      · rw [if_pos hi]
        simp only [goodWorkItem] at hgood
        rcases hdesc : dictGet d "Description" (JVal.s "") with dv | n' | q' | bb' | _ | xs' | ys'
        · dsimp only []
          simp only [bind, Except.bind, pure, Except.pure, pyIn]
          by_cases hcol : strContains dv ":" = true
          · rw [if_pos hcol]
            rcases hsp : splitFirst (fun c => c = ':') dv.toList with _ | ⟨a, bv⟩ <;>
              exact ⟨_, rfl⟩
          · rw [if_neg hcol]
            exact ⟨_, rfl⟩
        all_goals (rw [hdesc] at hgood; exact Bool.noConfusion hgood)
      · rw [if_neg hi]
        exact ⟨acc, rfl⟩
    all_goals exact ⟨acc, rfl⟩

/-- The WorkItems stage never raises on good entries. -/
theorem workPart_total (data : List (String × JVal)) (m : FieldMap)
    (h : goodWorkItemsEntry data = true) :
    ∃ m', workPart data m = .ok m' := by
  unfold goodWorkItemsEntry at h
  unfold workPart
  rcases hW : dictLookup data "WorkItems" with _ | v
  · exact ⟨m, rfl⟩
  · rw [hW] at h
    rcases v with s | n | q | bb | _ | items | xs
    case list => exact workItemsFold_total m items h
    all_goals exact ⟨m, rfl⟩

/-- `extract_classification` never raises on a good Inspector entry. -/
theorem extract_classification_total (data : List (String × JVal))
    (h : goodInspectorEntry data = true) :
    ∃ v, extract_classification data = .ok v := by
  unfold goodInspectorEntry at h
  unfold extract_classification
  rcases hI : dictLookup data "Inspector" with _ | v
  · exact ⟨_, rfl⟩
  · rw [hI] at h
    rcases v with s | n | q | bb | _ | xs | ins
    case list =>
      rcases xs with _ | ⟨x, rest⟩
      · exact ⟨_, rfl⟩
      · rcases x with s | n | q | bb | _ | ys | d
        case dict => exact ⟨_, rfl⟩
        all_goals exact Bool.noConfusion h
    all_goals exact ⟨_, rfl⟩

/-- The narrative fold only accumulates strings on good items. -/
theorem narrFold_strings (items : List JVal) :
    items.all goodNarrItem = true →
    ∀ acc : List JVal, (∀ x ∈ acc, ∃ s0, x = JVal.s s0) →
    ∀ x ∈ items.foldl
      (fun acc item =>
        match item with
        | JVal.dict d =>
          let text := dictGet d "Text" (.s "")
          let timestamp := dictGet d "Timestamp" (.s "")
          if text.truthy then
            if timestamp.truthy then
              acc ++ [.s ("[" ++ pyStr timestamp ++ "] " ++ pyStr text)]
            else acc ++ [text]
          else acc
        | _ => acc) acc, ∃ s0, x = JVal.s s0 := by
  induction items with
  | nil =>
    intro _ acc hacc x hx
    exact hacc x hx
  | cons item rest ih =>
    intro h acc hacc
    rw [List.all_cons, Bool.and_eq_true] at h
    rw [List.foldl_cons]
    apply ih h.2
    intro x hx
    rcases item with s | n | q | bb | _ | xs | d
    case dict =>
      dsimp only [] at hx
      by_cases ht : (dictGet d "Text" (JVal.s "")).truthy
      · by_cases hts : (dictGet d "Timestamp" (JVal.s "")).truthy
        · rw [if_pos ht, if_pos hts] at hx
          rcases List.mem_append.mp hx with hm | hm
          · exact hacc x hm
          · exact ⟨_, List.mem_singleton.mp hm⟩
        · rw [if_pos ht, if_neg hts] at hx
          rcases List.mem_append.mp hx with hm | hm
          · exact hacc x hm
          · have h1 := h.1
            have hts' : (dictGet d "Timestamp" (JVal.s "")).truthy = false := by
              simpa using hts
            simp only [goodNarrItem, ht, hts', Bool.not_true, Bool.false_or,
              Bool.or_false] at h1
            rcases hdt : dictGet d "Text" (JVal.s "") with tv | n' | q' | bb' | _ | xs' | ys'
            · rw [List.mem_singleton.mp hm, hdt]
              exact ⟨tv, rfl⟩
            all_goals (rw [hdt] at h1; exact Bool.noConfusion h1)
      · rw [if_neg ht] at hx
        exact hacc x hx
    all_goals exact hacc x hx

/-- `narrativeOf` yields only strings on a good narrative value. -/
theorem narrativeOf_strings (v : JVal) (h : goodNarrVal v = true) :
    ∀ x ∈ narrativeOf v, ∃ s0, x = JVal.s s0 := by
  rcases v with s | n | q | bb | _ | items | xs
  · intro x hx
    rw [List.mem_singleton.mp hx]
    exact ⟨s, rfl⟩
  case list =>
    intro x hx
    exact narrFold_strings items h [] (by simp) x hx
  all_goals intro x hx; exact absurd hx (List.not_mem_nil x)

/-- The equipment fold only accumulates strings on good items. -/
theorem equipFold_strings (items : List JVal) :
    items.all goodEquipItem = true →
    ∀ acc : List JVal, (∀ x ∈ acc, ∃ s0, x = JVal.s s0) →
    ∀ x ∈ items.foldl
      (fun acc item =>
        match item with
        | JVal.dict d =>
          let name := dictGet d "Name" (.s "")
          if name.truthy then acc ++ [name] else acc
        | _ => acc) acc, ∃ s0, x = JVal.s s0 := by
  induction items with
  | nil =>
    intro _ acc hacc x hx
    exact hacc x hx
  | cons item rest ih =>
    intro h acc hacc
    rw [List.all_cons, Bool.and_eq_true] at h
    rw [List.foldl_cons]
    apply ih h.2
    intro x hx
    rcases item with s | n | q | bb | _ | xs | d
    case dict =>
      dsimp only [] at hx
      by_cases ht : (dictGet d "Name" (JVal.s "")).truthy
      · rw [if_pos ht] at hx
        rcases List.mem_append.mp hx with hm | hm
        · exact hacc x hm
        · have h1 := h.1
          simp only [goodEquipItem] at h1
          obtain ⟨s0, hs0⟩ := goodStr_truthy_eq_s _ h1 ht
          rw [List.mem_singleton.mp hm, hs0]
          exact ⟨s0, rfl⟩
      · rw [if_neg ht] at hx
        exact hacc x hx
    all_goals exact hacc x hx

/-- `equipmentNames` yields only strings on good items. -/
theorem equipmentNames_strings (items : List JVal)
    (h : items.all goodEquipItem = true) :
    ∀ x ∈ equipmentNames items, ∃ s0, x = JVal.s s0 := by
  unfold equipmentNames
  exact equipFold_strings items h [] (by simp)

/-- A good equipment value is iterable and its names are all strings. -/
theorem equip_val_total (v : JVal) (h : goodEquipVal v = true) :
    ∃ items, iterItems v = .ok items ∧
      ∀ x ∈ equipmentNames items, ∃ s0, x = JVal.s s0 := by
  rcases v with s | n | q | bb | _ | items | xs
  · refine ⟨_, rfl, ?_⟩
    apply equipmentNames_strings
    rw [List.all_eq_true]
    intro x hx
    obtain ⟨c, hc, hcx⟩ := List.mem_map.mp hx
    rw [← hcx]
    rfl
  case list => exact ⟨items, rfl, equipmentNames_strings items h⟩
  case dict =>
    refine ⟨_, rfl, ?_⟩
    apply equipmentNames_strings
    rw [List.all_eq_true]
    intro x hx
    obtain ⟨kv, hkv, hkvx⟩ := List.mem_map.mp hx
    rw [← hkvx]
    rfl
  all_goals exact Bool.noConfusion h

/-- The final empty-check-then-join of the list extractors never raises
on a list of strings. -/
theorem joinTail_total (l : List JVal)
    (h : ∀ x ∈ l, ∃ s0, x = JVal.s s0) :
    ∃ r, (if l.isEmpty then (pure "" : Except PyErr String)
          else pyJoin "\n" l) = .ok r := by
  by_cases he : l.isEmpty
  · rw [if_pos he]
    exact ⟨"", rfl⟩
  · rw [if_neg he]
    exact pyJoin_ok _ _ h

/-- `extract_remarks_data` never raises on good Narrative / DailyReport
entries. -/
theorem extract_remarks_total (data : List (String × JVal))
    (hN : goodNarrTopEntry data = true) (hD : goodDailyEntry data = true) :
    ∃ r, extract_remarks_data data = .ok r := by
  unfold goodNarrTopEntry at hN
  unfold goodDailyEntry at hD
  have hTop : ∀ x ∈ (match dictLookup data "Narrative" with
      | some v => narrativeOf v
      | none => ([] : List JVal)), ∃ s0, x = JVal.s s0 := by
    rcases hNl : dictLookup data "Narrative" with _ | nv
    · intro x hx
      exact absurd hx (List.not_mem_nil x)
    · rw [hNl] at hN
      exact narrativeOf_strings nv hN
  unfold extract_remarks_data
  rcases hDl : dictLookup data "DailyReport" with _ | dr
  · dsimp only []
    simp only [bind, Except.bind, pure, Except.pure]
    obtain ⟨r, hr⟩ := joinTail_total _ (by
      intro x hx
      rcases List.mem_append.mp hx with hm | hm
      · exact hTop x hm
      · exact absurd hm (List.not_mem_nil x))
    exact ⟨r, hr⟩
  · rw [hDl] at hD
    rcases dr with sv | n | q | bb | _ | xs | drx
    · -- string daily report: the `in` test is false
      simp only [Bool.and_eq_true, Bool.not_eq_true'] at hD
      dsimp only []
      simp only [bind, Except.bind, pure, Except.pure, pyIn, hD.1]
      rw [if_neg (by simp)]
      obtain ⟨r, hr⟩ := joinTail_total _ (by
        intro x hx
        rcases List.mem_append.mp hx with hm | hm
        · exact hTop x hm
        · exact absurd hm (List.not_mem_nil x))
      exact ⟨r, hr⟩
    case list =>
      simp only [Bool.and_eq_true, Bool.not_eq_true'] at hD
      dsimp only []
      simp only [bind, Except.bind, pure, Except.pure, pyIn, hD.1]
      rw [if_neg (by simp)]
      obtain ⟨r, hr⟩ := joinTail_total _ (by
        intro x hx
        rcases List.mem_append.mp hx with hm | hm
        · exact hTop x hm
        · exact absurd hm (List.not_mem_nil x))
      exact ⟨r, hr⟩
    case dict =>
      simp only [Bool.and_eq_true] at hD
      dsimp only []
      simp only [bind, Except.bind, pure, Except.pure, pyIn, dict_any_key]
      rcases hNn : dictLookup drx "Narrative" with _ | nv
      · rw [if_neg (by simp)]
        obtain ⟨r, hr⟩ := joinTail_total _ (by
          intro x hx
          rcases List.mem_append.mp hx with hm | hm
          · exact hTop x hm
          · exact absurd hm (List.not_mem_nil x))
        exact ⟨r, hr⟩
      · rw [if_pos (by simp)]
        simp only [pySubscriptStr, hNn]
        rw [hNn] at hD
        obtain ⟨r, hr⟩ := joinTail_total _ (by
          intro x hx
          rcases List.mem_append.mp hx with hm | hm
          · exact hTop x hm
          · exact narrativeOf_strings nv hD.1 x hm)
        exact ⟨r, hr⟩
    all_goals exact Bool.noConfusion hD

/-- `extract_equipment_data` never raises on good Equipment / DailyReport
entries. -/
theorem extract_equipment_total (data : List (String × JVal))
    (hE : goodEquipTopEntry data = true) (hD : goodDailyEntry data = true) :
    ∃ r, extract_equipment_data data = .ok r := by
  unfold goodEquipTopEntry at hE
  unfold goodDailyEntry at hD
  unfold extract_equipment_data
  rcases hEl : dictLookup data "Equipment" with _ | ev
  case none =>
    rcases hDl : dictLookup data "DailyReport" with _ | dr
    · dsimp only []
      simp only [bind, Except.bind, pure, Except.pure]
      obtain ⟨r, hr⟩ := joinTail_total ([] ++ []) (by
        intro x hx
        simp at hx)
      exact ⟨r, hr⟩
    · rw [hDl] at hD
      rcases dr with sv | n | q | bb | _ | xs | drx
      · simp only [Bool.and_eq_true, Bool.not_eq_true'] at hD
        dsimp only []
        simp only [bind, Except.bind, pure, Except.pure, pyIn, hD.2]
        rw [if_neg (by simp)]
        obtain ⟨r, hr⟩ := joinTail_total ([] ++ []) (by
          intro x hx
          simp at hx)
        exact ⟨r, hr⟩
      case list =>
        simp only [Bool.and_eq_true, Bool.not_eq_true'] at hD
        dsimp only []
        simp only [bind, Except.bind, pure, Except.pure, pyIn, hD.2]
        rw [if_neg (by simp)]
        obtain ⟨r, hr⟩ := joinTail_total ([] ++ []) (by
          intro x hx
          simp at hx)
        exact ⟨r, hr⟩
      case dict =>
        simp only [Bool.and_eq_true] at hD
        dsimp only []
        simp only [bind, Except.bind, pure, Except.pure, pyIn, dict_any_key]
        rcases hEn : dictLookup drx "Equipment" with _ | dev
        · rw [if_neg (by simp)]
          obtain ⟨r, hr⟩ := joinTail_total ([] ++ []) (by
            intro x hx
            simp at hx)
          exact ⟨r, hr⟩
        · rw [if_pos (by simp)]
          simp only [pySubscriptStr, hEn]
          rw [hEn] at hD
          obtain ⟨ditems, hditer, hdstr⟩ := equip_val_total dev hD.2
          rw [hditer]
          obtain ⟨r, hr⟩ := joinTail_total ([] ++ equipmentNames ditems) (by
            intro x hx
            rcases List.mem_append.mp hx with hm | hm
            · exact absurd hm (List.not_mem_nil x)
            · exact hdstr x hm)
          exact ⟨r, hr⟩
      all_goals exact Bool.noConfusion hD
  case some =>
    rw [hEl] at hE
    obtain ⟨titems, htiter, htstr⟩ := equip_val_total ev hE
    rcases hDl : dictLookup data "DailyReport" with _ | dr
    · dsimp only []
      simp only [bind, Except.bind, pure, Except.pure]
      rw [htiter]
      obtain ⟨r, hr⟩ := joinTail_total (equipmentNames titems ++ []) (by
        intro x hx
        rcases List.mem_append.mp hx with hm | hm
        · exact htstr x hm
        · exact absurd hm (List.not_mem_nil x))
      exact ⟨r, hr⟩
    · rw [hDl] at hD
      rcases dr with sv | n | q | bb | _ | xs | drx
      · simp only [Bool.and_eq_true, Bool.not_eq_true'] at hD
        dsimp only []
        simp only [bind, Except.bind, pure, Except.pure, pyIn, hD.2]
        rw [htiter]
        dsimp only []
        rw [if_neg (by simp)]
        obtain ⟨r, hr⟩ := joinTail_total (equipmentNames titems ++ []) (by
          intro x hx
          rcases List.mem_append.mp hx with hm | hm
          · exact htstr x hm
          · exact absurd hm (List.not_mem_nil x))
        exact ⟨r, hr⟩
      case list =>
        simp only [Bool.and_eq_true, Bool.not_eq_true'] at hD
        dsimp only []
        simp only [bind, Except.bind, pure, Except.pure, pyIn, hD.2]
        rw [htiter]
        dsimp only []
        rw [if_neg (by simp)]
        obtain ⟨r, hr⟩ := joinTail_total (equipmentNames titems ++ []) (by
          intro x hx
          rcases List.mem_append.mp hx with hm | hm
          · exact htstr x hm
          · exact absurd hm (List.not_mem_nil x))
        exact ⟨r, hr⟩
      case dict =>
        simp only [Bool.and_eq_true] at hD
        dsimp only []
        simp only [bind, Except.bind, pure, Except.pure, pyIn, dict_any_key]
        rw [htiter]
        dsimp only []
        rcases hEn : dictLookup drx "Equipment" with _ | dev
        · rw [if_neg (by simp)]
          obtain ⟨r, hr⟩ := joinTail_total (equipmentNames titems ++ []) (by
            intro x hx
            rcases List.mem_append.mp hx with hm | hm
            · exact htstr x hm
            · exact absurd hm (List.not_mem_nil x))
          exact ⟨r, hr⟩
        · rw [if_pos (by simp)]
          simp only [pySubscriptStr, hEn]
          rw [hEn] at hD
          obtain ⟨ditems, hditer, hdstr⟩ := equip_val_total dev hD.2
          rw [hditer]
          obtain ⟨r, hr⟩ := joinTail_total
            (equipmentNames titems ++ equipmentNames ditems) (by
            intro x hx
            rcases List.mem_append.mp hx with hm | hm
            · exact htstr x hm
            · exact hdstr x hm)
          exact ⟨r, hr⟩
      all_goals exact Bool.noConfusion hD

/-- The tail of `create_field_mapping` never raises on good entries. -/
theorem mappingTail_total (data : List (String × JVal)) (mWork : FieldMap)
    (hP : goodPersonnelEntry data = true)
    (hI : goodInspectorEntry data = true)
    (hN : goodNarrTopEntry data = true)
    (hE : goodEquipTopEntry data = true)
    (hD : goodDailyEntry data = true) :
    ∃ m, mappingTail data mWork = .ok m := by
  obtain ⟨sup, hsup⟩ := extract_superintendent_total data hP
  obtain ⟨cls, hcls⟩ := extract_classification_total data hI
  obtain ⟨rem, hrem⟩ := extract_remarks_total data hN hD
  obtain ⟨eqp, heqp⟩ := extract_equipment_total data hE hD
  unfold mappingTail
  simp only [bind, Except.bind, pure, Except.pure]
  rw [hsup, hcls, hrem, heqp]
  exact ⟨_, rfl⟩

/-- C3 counterexample: the claim says *whatever the shapes and types* of
the `Equipment` entry (among others), `create_field_mapping` returns
without raising.  But an integer `Equipment` value reaches
`for item in data['Equipment']` (line 22) and raises `TypeError`. -/
theorem C3_any_shape_counterexample :
    create_field_mapping [("Equipment", JVal.i 5)] = .error .typeError := by
  rfl

/-- C3 (amended): `create_field_mapping` tolerates absent, partial and
differently-typed `Weather`, `Personnel`, `WorkItems`, `Inspector`,
`Narrative`, `Equipment` and `DailyReport` entries only within the limits
of `wellFormedData`; on every such input it returns a (flat, string-keyed)
field mapping without raising. -/
theorem C3_shape_tolerance (data : List (String × JVal))
    (h : wellFormedData data = true) :
    ∃ m, create_field_mapping data = .ok m := by
  unfold wellFormedData at h
  simp only [Bool.and_eq_true] at h
  obtain ⟨⟨⟨⟨⟨⟨hW, hP⟩, hWk⟩, hI⟩, hN⟩, hE⟩, hD⟩ := h
  obtain ⟨w, mw, hw, hwp⟩ := weather_stage_total data hW
  obtain ⟨m1, hm1⟩ := personnelPart_total data mw hP
  obtain ⟨m2, hm2⟩ := workPart_total data m1 hWk
  obtain ⟨m3, hm3⟩ := mappingTail_total data m2 hP hI hN hE hD
  refine ⟨m3, ?_⟩
  unfold create_field_mapping
  simp only [bind, Except.bind]
  rw [hw]
  dsimp only []
  rw [hwp]
  dsimp only []
  rw [hm1]
  dsimp only []
  rw [hm2]
  dsimp only []
  exact hm3

/-- A well-formed report exercising every section. -/
def dataC3 : List (String × JVal) :=
  [("DocumentDate", .s "2024-03-15"),
   ("Weather", .dict [("Temperature", .i 75), ("Wind", .s "Strong"),
     ("Humidity", .s "Very Dry"), ("Conditions", .s "Partly Cloudy")]),
   ("Personnel", .list
     [.dict [("Contractor", .s "ACME"), ("Trade", .s "Operator"),
       ("Count", .i 3)],
      .dict [("Name", .s "Bob")]]),
   ("WorkItems", .list [.dict [("Description", .s "Paving: lane 1"),
     ("Quantity", .i 5), ("Units", .s "tons")]]),
   ("Inspector", .list [.dict [("Classification", .s "Senior")]]),
   ("Narrative", .list [.dict [("Text", .s "rain delay"),
     ("Timestamp", .s "08:00")]]),
   ("Equipment", .list [.dict [("Name", .s "Excavator")]]),
   ("DailyReport", .dict [("Equipment", .list
     [.dict [("Name", .s "Crane")]])])]

theorem C3_shape_tolerance_witness :
    wellFormedData dataC3 = true ∧
    ∃ m, create_field_mapping dataC3 = .ok m :=
  ⟨by decide, C3_shape_tolerance dataC3 (by decide)⟩
